import Mathlib

/-!
Verification of the HyperLogLog core of the ardb key-value server
(src/src/hyperloglog.cpp) against its natural-language specification.

The C code is shallowly embedded: byte buffers become lists of naturals
(each element a byte value), 64-bit machine arithmetic becomes natural
arithmetic reduced modulo 2^64 where the C overflows, and the storage
backend becomes a function from keys to optional byte strings.
-/

set_option maxRecDepth 2000

/-! ## HashCore: MurmurHash2 64A (hyperloglog.cpp, MurmurHash64A) -/

/-- Reduction modulo 2^64, the truncation applied by C uint64_t arithmetic. -/
def mask64 (x : Nat) : Nat := x % 18446744073709551616

/-- Multiplication constant m of MurmurHash64A. -/
def murmurM : Nat := 0xc6a4a7935bd1e995

/-- One 8-byte block step of MurmurHash64A:
k *= m; k ^= k >> r; k *= m; h ^= k; h *= m (r = 47). -/
def murmurBlockStep (h k : Nat) : Nat :=
  let k1 := mask64 (k * murmurM)
  let k2 := k1 ^^^ (k1 >>> 47)
  let k3 := mask64 (k2 * murmurM)
  mask64 ((h ^^^ k3) * murmurM)

/-- Little-endian load of an 8-byte block, as done by the direct uint64 read
on a little-endian host. -/
def le8 (b0 b1 b2 b3 b4 b5 b6 b7 : Nat) : Nat :=
  b0 ||| (b1 <<< 8) ||| (b2 <<< 16) ||| (b3 <<< 24) |||
  (b4 <<< 32) ||| (b5 <<< 40) ||| (b6 <<< 48) ||| (b7 <<< 56)

/-- Split the input into the list of full 8-byte little-endian blocks and the
remaining tail of fewer than 8 bytes. -/
def murmurSplit : List Nat → List Nat × List Nat
  | b0 :: b1 :: b2 :: b3 :: b4 :: b5 :: b6 :: b7 :: rest =>
    let p := murmurSplit rest
    (le8 b0 b1 b2 b3 b4 b5 b6 b7 :: p.1, p.2)
  | l => ([], l)

/-- Little-endian accumulation of the tail bytes: the switch in the C source
folds byte i of the tail into the hash at shift 8*i. -/
def murmurTailBytes : List Nat → Nat
  | [] => 0
  | b :: bs => b ^^^ (murmurTailBytes bs <<< 8)

/-- MurmurHash64A of a byte string with the given seed, as in the source:
h = seed ^ (len * m); per-block mixing; tail fold followed by h *= m when the
tail is nonempty; final avalanche h ^= h>>47; h *= m; h ^= h>>47. -/
def MurmurHash64A (data : List Nat) (seed : Nat) : Nat :=
  let h0 := seed ^^^ mask64 (data.length * murmurM)
  let p := murmurSplit data
  let h1 := p.1.foldl murmurBlockStep h0
  let h2 := if p.2.isEmpty then h1
            else mask64 ((h1 ^^^ murmurTailBytes p.2) * murmurM)
  let h3 := h2 ^^^ (h2 >>> 47)
  let h4 := mask64 (h3 * murmurM)
  h4 ^^^ (h4 >>> 47)

/-- Count of consecutive zero bits of h starting at bit position pos, moving
toward the most significant bit; fuel bounds the scan. In hllPatLen bit 63 of
the scanned value is always set, so with fuel 50 (positions 14..63) the fuel
never runs out before a one bit is found and this equals the C while loop. -/
def zeroRunFrom (h : Nat) : Nat → Nat → Nat
  | _, 0 => 0
  | pos, fuel + 1 => if h.testBit pos then 0 else zeroRunFrom h (pos + 1) fuel + 1

/-- hllPatLen: returns (count, register index). index is the low 14 bits of
the hash; count is 1 plus the number of consecutive zero bits of the hash
starting at bit 14, after forcing bit 63 to one. -/
def hllPatLen (ele : List Nat) : Nat × Nat :=
  let hash := MurmurHash64A ele 0xadc83b19
  let index := hash &&& 16383
  let h := hash ||| (1 <<< 63)
  (1 + zeroRunFrom h 14 50, index)

/-- Register index computed by hllPatLen. -/
def patIndex (ele : List Nat) : Nat := (hllPatLen ele).2

/-- Zero-run count computed by hllPatLen. -/
def patCount (ele : List Nat) : Nat := (hllPatLen ele).1

theorem zeroRunFrom_le_fuel (h : Nat) : ∀ pos fuel, zeroRunFrom h pos fuel ≤ fuel
  | _, 0 => Nat.le_refl 0
  | pos, fuel + 1 => by
    unfold zeroRunFrom
    split
    · exact Nat.zero_le _
    · exact Nat.succ_le_succ (zeroRunFrom_le_fuel h (pos + 1) fuel)

theorem patCount_le (ele : List Nat) : patCount ele ≤ 51 := by
  unfold patCount hllPatLen
  simpa using Nat.add_le_add_left (zeroRunFrom_le_fuel _ 14 50) 1

theorem patCount_pos (ele : List Nat) : 1 ≤ patCount ele := by
  unfold patCount hllPatLen
  exact Nat.le_add_right 1 _

theorem patIndex_lt (ele : List Nat) : patIndex ele < 16384 := by
  unfold patIndex hllPatLen
  have : MurmurHash64A ele 0xadc83b19 &&& 16383 = MurmurHash64A ele 0xadc83b19 % 16384 := by
    have := Nat.and_pow_two_sub_one_eq_mod (MurmurHash64A ele 0xadc83b19) 14
    norm_num at this
    simpa using this
  simp only [this]
  exact Nat.mod_lt _ (by norm_num)

theorem patIndex_eq_mod (ele : List Nat) :
    patIndex ele = MurmurHash64A ele 0xadc83b19 % 16384 := by
  unfold patIndex hllPatLen
  have := Nat.and_pow_two_sub_one_eq_mod (MurmurHash64A ele 0xadc83b19) 14
  norm_num at this
  simpa using this

/-- Claim C3: for every input byte string, hllPatLen returns a register index
equal to the low 14 bits of MurmurHash64A of the input (hence below 16384),
and a run length in the range [1, 51]. -/
theorem pat_len_index_and_count_range (ele : List Nat) :
    (hllPatLen ele).2 = MurmurHash64A ele 0xadc83b19 % 16384 ∧
    (hllPatLen ele).2 < 16384 ∧
    1 ≤ (hllPatLen ele).1 ∧ (hllPatLen ele).1 ≤ 51 :=
  ⟨patIndex_eq_mod ele, patIndex_lt ele, patCount_pos ele, patCount_le ele⟩

/-! ## DenseCodec: 6-bit registers packed across byte boundaries
(HLL_DENSE_GET_REGISTER / HLL_DENSE_SET_REGISTER) -/

/-- Index of the first byte holding register r: regnum*HLL_BITS/8. -/
def denseByteIdx (r : Nat) : Nat := r * 6 / 8

/-- Bit offset of register r inside its first byte: regnum*HLL_BITS&7. -/
def denseBitIdx (r : Nat) : Nat := r * 6 % 8

/-- HLL_DENSE_GET_REGISTER: value of 6-bit register r in the byte list regs.
Reading one byte past the end yields 0, matching the implicit sds NUL
terminator the C code relies on. -/
def denseGet (regs : List Nat) (r : Nat) : Nat :=
  ((regs.getD (denseByteIdx r) 0 >>> denseBitIdx r) |||
   (regs.getD (denseByteIdx r + 1) 0 <<< (8 - denseBitIdx r))) &&& 63

/-- New value of the first byte written by HLL_DENSE_SET_REGISTER:
clear the 6-bit field with the inverted mask (truncated to 8 bits by the
uint8_t store) and OR in val shifted to the field position. -/
def denseSetB0 (regs : List Nat) (r v : Nat) : Nat :=
  (regs.getD (denseByteIdx r) 0 &&& (255 ^^^ ((63 <<< denseBitIdx r) &&& 255))) |||
  ((v <<< denseBitIdx r) &&& 255)

/-- New value of the second byte written by HLL_DENSE_SET_REGISTER. -/
def denseSetB1 (regs : List Nat) (r v : Nat) : Nat :=
  (regs.getD (denseByteIdx r + 1) 0 &&& (255 ^^^ (63 >>> (8 - denseBitIdx r)))) |||
  ((v >>> (8 - denseBitIdx r)) &&& 255)

/-- HLL_DENSE_SET_REGISTER: write 6-bit value v for register r. Writing to
the byte one past the end is dropped, matching the C write of 0 into the
sds NUL terminator for the last register. -/
def denseSet (regs : List Nat) (r v : Nat) : List Nat :=
  (regs.set (denseByteIdx r) (denseSetB0 regs r v)).set (denseByteIdx r + 1)
    (denseSetB1 regs r v)

/-- Little-endian value of a byte list, used to reason about the packed
register bit stream as a single natural number. -/
def leVal : List Nat → Nat
  | [] => 0
  | b :: bs => b + 256 * leVal bs

/-- All elements of a list are byte values. -/
def bytes256 (l : List Nat) : Prop := ∀ b ∈ l, b < 256

theorem bytes256_getD {l : List Nat} (h : bytes256 l) (k : Nat) : l.getD k 0 < 256 := by
  rw [List.getD_eq_getElem?_getD]
  cases hk : l[k]? with
  | none => simp
  | some b => simpa using h b (List.getElem?_mem hk)

theorem testBit_leVal {regs : List Nat} (hb : bytes256 regs) (n : Nat) :
    (leVal regs).testBit n = (regs.getD (n / 8) 0).testBit (n % 8) := by
  induction regs generalizing n with
  | nil => simp [leVal]
  | cons b bs ih =>
    have hblt : b < 256 := hb b (by simp)
    have hbs : bytes256 bs := fun x hx => hb x (by simp [hx])
    by_cases hn : n < 8
    · have h8 : n / 8 = 0 := Nat.div_eq_of_lt hn
      have hm : n % 8 = n := Nat.mod_eq_of_lt hn
      rw [h8, hm]
      have hmod : (b + 256 * leVal bs) % 2 ^ 8 = b := by
        show (b + 256 * leVal bs) % 256 = b
        omega
      have htb := Nat.testBit_mod_two_pow (b + 256 * leVal bs) 8 n
      rw [hmod] at htb
      simp only [leVal, List.getD_cons_zero]
      rw [htb]
      simp [hn]
    · have hsh : (b + 256 * leVal bs) >>> 8 = leVal bs := by
        rw [Nat.shiftRight_eq_div_pow]
        show (b + 256 * leVal bs) / 256 = leVal bs
        omega
      have hrw : (leVal (b :: bs)).testBit n = (leVal bs).testBit (n - 8) := by
        have hts := Nat.testBit_shiftRight (i := 8) (j := n - 8) (b + 256 * leVal bs)
        rw [hsh] at hts
        show (b + 256 * leVal bs).testBit n = (leVal bs).testBit (n - 8)
        rw [hts]
        congr 1
        omega
      rw [hrw, ih hbs]
      have h1 : (n - 8) / 8 = n / 8 - 1 := by omega
      have h2 : (n - 8) % 8 = n % 8 := by omega
      have h3 : n / 8 = (n / 8 - 1) + 1 := by omega
      rw [h1, h2, h3]
      simp [List.getD_cons_succ]

theorem and63_eq_mod (x : Nat) : x &&& 63 = x % 2 ^ 6 := by
  have := Nat.and_pow_two_sub_one_eq_mod x 6
  norm_num at this
  exact this

theorem denseGet_eq_extract {regs : List Nat} (hb : bytes256 regs) (r : Nat) :
    denseGet regs r = (leVal regs >>> (6 * r)) % 64 := by
  have hfb : denseBitIdx r < 8 := Nat.mod_lt _ (by norm_num)
  have hsum : 8 * denseByteIdx r + denseBitIdx r = 6 * r := by
    unfold denseByteIdx denseBitIdx
    omega
  unfold denseGet
  rw [and63_eq_mod, show (64:Nat) = 2 ^ 6 by norm_num]
  apply Nat.eq_of_testBit_eq
  intro m
  rw [Nat.testBit_mod_two_pow, Nat.testBit_mod_two_pow]
  by_cases hm : m < 6
  · have hd : decide (m < 6) = true := by simp [hm]
    rw [hd]
    simp only [Bool.true_and]
    rw [Nat.testBit_shiftRight, testBit_leVal hb]
    rw [Nat.testBit_or, Nat.testBit_shiftRight, Nat.testBit_shiftLeft]
    have hb0 := bytes256_getD hb (denseByteIdx r)
    by_cases hcross : denseBitIdx r + m < 8
    · have e1 : (6 * r + m) / 8 = denseByteIdx r := by omega
      have e2 : (6 * r + m) % 8 = denseBitIdx r + m := by omega
      have e3 : ¬ (m ≥ 8 - denseBitIdx r) := by omega
      rw [e1, e2]
      simp [e3]
    · have e1 : (6 * r + m) / 8 = denseByteIdx r + 1 := by omega
      have e2 : (6 * r + m) % 8 = denseBitIdx r + m - 8 := by omega
      have e3 : m ≥ 8 - denseBitIdx r := by omega
      have e4 : (regs.getD (denseByteIdx r) 0).testBit (denseBitIdx r + m) = false := by
        apply Nat.testBit_lt_two_pow
        calc regs.getD (denseByteIdx r) 0 < 256 := hb0
        _ = 2 ^ 8 := by norm_num
        _ ≤ 2 ^ (denseBitIdx r + m) := Nat.pow_le_pow_right (by norm_num) (by omega)
      have e5 : m - (8 - denseBitIdx r) = denseBitIdx r + m - 8 := by omega
      rw [e1, e2, e4, e5]
      simp [e3]
  · simp [hm]

theorem testBit_255 (k : Nat) : (255 : Nat).testBit k = decide (k < 8) := by
  have := Nat.testBit_two_pow_sub_one 8 k
  norm_num at this
  exact this

theorem testBit_63 (k : Nat) : (63 : Nat).testBit k = decide (k < 6) := by
  have := Nat.testBit_two_pow_sub_one 6 k
  norm_num at this
  exact this

theorem testBit_byte0_update (b0 v fb m : Nat) (hfb : fb < 8) (hm : m < 8)
    (hv : v < 64) :
    ((b0 &&& (255 ^^^ ((63 <<< fb) &&& 255))) ||| ((v <<< fb) &&& 255)).testBit m =
      if fb ≤ m ∧ m < fb + 6 then v.testBit (m - fb) else b0.testBit m := by
  simp only [Nat.testBit_or, Nat.testBit_and, Nat.testBit_xor, Nat.testBit_shiftLeft,
    testBit_255, testBit_63]
  have e3 : decide (m < 8) = true := by simp [hm]
  rw [e3]
  by_cases h1 : fb ≤ m
  · by_cases h2 : m < fb + 6
    · have e1 : decide (m ≥ fb) = true := by simp [h1]
      have e2 : decide (m - fb < 6) = true := by simp; omega
      rw [e1, e2, if_pos ⟨h1, h2⟩]
      simp
    · have e2 : decide (m - fb < 6) = false := by simp; omega
      have e1 : decide (m ≥ fb) = true := by simp [h1]
      have e4 : v.testBit (m - fb) = false := by
        apply Nat.testBit_lt_two_pow
        calc v < 64 := hv
        _ = 2 ^ 6 := by norm_num
        _ ≤ 2 ^ (m - fb) := Nat.pow_le_pow_right (by norm_num) (by omega)
      rw [e1, e2, e4, if_neg (by omega)]
      simp
  · have e1 : decide (m ≥ fb) = false := by simp; omega
    rw [e1, if_neg (by omega)]
    simp

theorem testBit_byte1_update (b1 v fb m : Nat) (hfb : fb < 8) (hm : m < 8)
    (hv : v < 64) :
    ((b1 &&& (255 ^^^ (63 >>> (8 - fb)))) ||| ((v >>> (8 - fb)) &&& 255)).testBit m =
      if m + 8 < fb + 6 then v.testBit (m + 8 - fb) else b1.testBit m := by
  simp only [Nat.testBit_or, Nat.testBit_and, Nat.testBit_xor, Nat.testBit_shiftRight,
    testBit_255, testBit_63]
  have e3 : decide (m < 8) = true := by simp [hm]
  rw [e3]
  by_cases h2 : m + 8 < fb + 6
  · have e2 : decide (8 - fb + m < 6) = true := by simp; omega
    have e5 : 8 - fb + m = m + 8 - fb := by omega
    rw [e2, e5, if_pos h2]
    simp
  · have e2 : decide (8 - fb + m < 6) = false := by simp; omega
    have e4 : v.testBit (8 - fb + m) = false := by
      apply Nat.testBit_lt_two_pow
      calc v < 64 := hv
      _ = 2 ^ 6 := by norm_num
      _ ≤ 2 ^ (8 - fb + m) := Nat.pow_le_pow_right (by norm_num) (by omega)
    rw [e2, e4, if_neg h2]
    simp

theorem denseSetB0_lt (regs : List Nat) (r v : Nat) (hb : bytes256 regs) :
    denseSetB0 regs r v < 256 := by
  unfold denseSetB0
  have h1 : regs.getD (denseByteIdx r) 0 &&& (255 ^^^ ((63 <<< denseBitIdx r) &&& 255))
      < 256 := Nat.lt_of_le_of_lt Nat.and_le_left (bytes256_getD hb _)
  have h2 : (v <<< denseBitIdx r) &&& 255 < 256 :=
    Nat.lt_of_le_of_lt Nat.and_le_right (by norm_num)
  have := Nat.or_lt_two_pow (n := 8) (by simpa using h1) (by simpa using h2)
  simpa using this

theorem denseSetB1_lt (regs : List Nat) (r v : Nat) (hb : bytes256 regs) :
    denseSetB1 regs r v < 256 := by
  unfold denseSetB1
  have h1 : regs.getD (denseByteIdx r + 1) 0 &&& (255 ^^^ (63 >>> (8 - denseBitIdx r)))
      < 256 := Nat.lt_of_le_of_lt Nat.and_le_left (bytes256_getD hb _)
  have h2 : (v >>> (8 - denseBitIdx r)) &&& 255 < 256 :=
    Nat.lt_of_le_of_lt Nat.and_le_right (by norm_num)
  have := Nat.or_lt_two_pow (n := 8) (by simpa using h1) (by simpa using h2)
  simpa using this

theorem denseSet_length (regs : List Nat) (r v : Nat) :
    (denseSet regs r v).length = regs.length := by
  unfold denseSet
  simp

theorem denseSet_bytes256 {regs : List Nat} (hb : bytes256 regs) (r v : Nat) :
    bytes256 (denseSet regs r v) := by
  intro b hmem
  unfold denseSet at hmem
  rcases List.mem_or_eq_of_mem_set hmem with h | h
  · rcases List.mem_or_eq_of_mem_set h with h' | h'
    · exact hb b h'
    · rw [h']
      exact denseSetB0_lt regs r v hb
  · rw [h]
    exact denseSetB1_lt regs r v hb

theorem denseSet_getD {regs : List Nat} (r v k : Nat) (hlen : regs.length = 12288)
    (hr : r < 16384) (hv : v < 64) :
    (denseSet regs r v).getD k 0 =
      if k = denseByteIdx r then denseSetB0 regs r v
      else if k = denseByteIdx r + 1 then denseSetB1 regs r v
      else regs.getD k 0 := by
  have hi : denseByteIdx r < 12288 := by
    unfold denseByteIdx
    omega
  unfold denseSet
  rw [List.getD_eq_getElem?_getD, List.getD_eq_getElem?_getD]
  by_cases hk1 : k = denseByteIdx r + 1
  · subst hk1
    by_cases hend : denseByteIdx r + 1 < regs.length
    · rw [List.getElem?_set_self (by simpa using hend)]
      rw [if_neg (by omega), if_pos rfl]
      simp
    · -- the write one past the end is dropped; the written value is 0 there
      rw [hlen] at hend
      have hr' : r = 16383 := by
        unfold denseByteIdx at hi hend
        omega
      have hfb : denseBitIdx r = 2 := by
        subst hr'
        decide
      have hb1v : denseSetB1 regs r v = 0 := by
        unfold denseSetB1
        rw [hfb]
        have hg : regs.getD (denseByteIdx r + 1) 0 = 0 := by
          rw [List.getD_eq_getElem?_getD, List.getElem?_eq_none (by omega)]
          simp
        rw [hg]
        have hv6 : v >>> (8 - 2) = 0 := by
          rw [Nat.shiftRight_eq_div_pow]
          show v / 64 = 0
          omega
        rw [hv6]
        simp
      have hlen2 : (regs.set (denseByteIdx r) (denseSetB0 regs r v)).length ≤
          denseByteIdx r + 1 := by
        simp [hlen]
        omega
      rw [List.set_eq_of_length_le hlen2]
      rw [List.getElem?_eq_none (by simp [hlen]; omega)]
      rw [if_neg (by omega), if_pos rfl, hb1v]
      simp
  · rw [List.getElem?_set_ne (by omega)]
    by_cases hk0 : k = denseByteIdx r
    · subst hk0
      rw [List.getElem?_set_self (by omega)]
      rw [if_pos rfl]
      simp
    · rw [List.getElem?_set_ne (by omega)]
      rw [if_neg hk0, if_neg hk1]

theorem leVal_denseSet_testBit {regs : List Nat} (hb : bytes256 regs)
    (hlen : regs.length = 12288) {r v : Nat} (hr : r < 16384) (hv : v < 64) (n : Nat) :
    (leVal (denseSet regs r v)).testBit n =
      if 6 * r ≤ n ∧ n < 6 * r + 6 then v.testBit (n - 6 * r)
      else (leVal regs).testBit n := by
  have hb' := denseSet_bytes256 hb r v
  have hfb : denseBitIdx r < 8 := Nat.mod_lt _ (by norm_num)
  have hsum : 8 * denseByteIdx r + denseBitIdx r = 6 * r := by
    unfold denseByteIdx denseBitIdx
    omega
  have hm8 : n % 8 < 8 := Nat.mod_lt _ (by norm_num)
  rw [testBit_leVal hb', testBit_leVal hb, denseSet_getD r v (n / 8) hlen hr hv]
  by_cases hk0 : n / 8 = denseByteIdx r
  · rw [if_pos hk0]
    unfold denseSetB0
    rw [testBit_byte0_update _ _ _ _ hfb hm8 hv]
    by_cases hc : 6 * r ≤ n ∧ n < 6 * r + 6
    · have hc' : denseBitIdx r ≤ n % 8 ∧ n % 8 < denseBitIdx r + 6 := by omega
      rw [if_pos hc', if_pos hc]
      congr 1
      omega
    · have hc' : ¬(denseBitIdx r ≤ n % 8 ∧ n % 8 < denseBitIdx r + 6) := by omega
      rw [if_neg hc', if_neg hc, hk0]
  · by_cases hk1 : n / 8 = denseByteIdx r + 1
    · rw [if_neg hk0, if_pos hk1]
      unfold denseSetB1
      rw [testBit_byte1_update _ _ _ _ hfb hm8 hv]
      by_cases hc : 6 * r ≤ n ∧ n < 6 * r + 6
      · have hc' : n % 8 + 8 < denseBitIdx r + 6 := by omega
        rw [if_pos hc', if_pos hc]
        congr 1
        omega
      · have hc' : ¬(n % 8 + 8 < denseBitIdx r + 6) := by omega
        rw [if_neg hc', if_neg hc, hk1]
    · rw [if_neg hk0, if_neg hk1]
      have hcf : ¬(6 * r ≤ n ∧ n < 6 * r + 6) := by omega
      rw [if_neg hcf]

theorem denseGet_denseSet {regs : List Nat} (hb : bytes256 regs)
    (hlen : regs.length = 12288) {r v : Nat} (hr : r < 16384) (hv : v < 64) (j : Nat) :
    denseGet (denseSet regs r v) j = if j = r then v else denseGet regs j := by
  have hb' := denseSet_bytes256 hb r v
  rw [denseGet_eq_extract hb', denseGet_eq_extract hb]
  by_cases hj : j = r
  · subst hj
    rw [if_pos rfl]
    apply Nat.eq_of_testBit_eq
    intro m
    rw [show (64:Nat) = 2 ^ 6 by norm_num, Nat.testBit_mod_two_pow,
      Nat.testBit_shiftRight, leVal_denseSet_testBit hb hlen hr hv]
    by_cases hm : m < 6
    · rw [if_pos (by omega)]
      have : 6 * j + m - 6 * j = m := by omega
      rw [this]
      simp [hm]
    · have hvf : v.testBit m = false := by
        apply Nat.testBit_lt_two_pow
        calc v < 64 := hv
        _ = 2 ^ 6 := by norm_num
        _ ≤ 2 ^ m := Nat.pow_le_pow_right (by norm_num) (by omega)
      rw [hvf]
      simp [hm]
  · rw [if_neg hj]
    apply Nat.eq_of_testBit_eq
    intro m
    rw [show (64:Nat) = 2 ^ 6 by norm_num, Nat.testBit_mod_two_pow,
      Nat.testBit_mod_two_pow, Nat.testBit_shiftRight, Nat.testBit_shiftRight,
      leVal_denseSet_testBit hb hlen hr hv]
    by_cases hm : m < 6
    · rw [if_neg (by omega)]
    · simp [hm]

theorem denseGet_lt_64 (regs : List Nat) (j : Nat) : denseGet regs j < 64 := by
  unfold denseGet
  exact Nat.lt_of_le_of_lt Nat.and_le_right (by norm_num)

/-! ## Dense add (hllDenseAdd) -/

/-- hllDenseAdd: compute (count, index) with hllPatLen; if count exceeds the
current register at index, write count and return 1, otherwise return 0 and
leave the registers untouched. -/
def hllDenseAdd (registers ele : List Nat) : Int × List Nat :=
  if (hllPatLen ele).1 > denseGet registers (hllPatLen ele).2 then
    (1, denseSet registers (hllPatLen ele).2 (hllPatLen ele).1)
  else (0, registers)

theorem patCount_lt_64 (ele : List Nat) : (hllPatLen ele).1 < 64 :=
  Nat.lt_of_le_of_lt (patCount_le ele) (by norm_num)

/-- Claim C5: on a dense register array, hllDenseAdd returns 1 and writes
count into the register at index exactly when count is strictly greater than
the current value; otherwise it returns 0 and leaves the array identical.
Registers other than index are never touched, and no register is ever
decreased. -/
theorem dense_add_register_semantics (regs ele : List Nat)
    (hlen : regs.length = 12288) (hb : bytes256 regs) :
    ((hllDenseAdd regs ele).1 = 1 ↔ patCount ele > denseGet regs (patIndex ele)) ∧
    ((hllDenseAdd regs ele).1 = 1 →
      denseGet (hllDenseAdd regs ele).2 (patIndex ele) = patCount ele ∧
      ∀ j, j ≠ patIndex ele → denseGet (hllDenseAdd regs ele).2 j = denseGet regs j) ∧
    ((hllDenseAdd regs ele).1 ≠ 1 →
      (hllDenseAdd regs ele).1 = 0 ∧ (hllDenseAdd regs ele).2 = regs) ∧
    (∀ j, denseGet regs j ≤ denseGet (hllDenseAdd regs ele).2 j) := by
  have hidx : (hllPatLen ele).2 < 16384 := patIndex_lt ele
  have hcnt : (hllPatLen ele).1 < 64 := patCount_lt_64 ele
  unfold hllDenseAdd patCount patIndex
  by_cases hgt : (hllPatLen ele).1 > denseGet regs (hllPatLen ele).2
  · rw [if_pos hgt]
    refine ⟨by simp [hgt], fun _ => ⟨?_, fun j hj => ?_⟩, by simp, fun j => ?_⟩
    · rw [denseGet_denseSet hb hlen hidx hcnt, if_pos rfl]
    · rw [denseGet_denseSet hb hlen hidx hcnt, if_neg hj]
    · rw [denseGet_denseSet hb hlen hidx hcnt]
      by_cases hj : j = (hllPatLen ele).2
      · rw [if_pos hj]
        subst hj
        exact Nat.le_of_lt hgt
      · rw [if_neg hj]
  · rw [if_neg hgt]
    exact ⟨by simpa using hgt, by simp, fun _ => ⟨rfl, rfl⟩, fun j => Nat.le_refl _⟩

/-- Witness for C5: the all-zero dense register array and element 0x61. -/
theorem dense_add_register_semantics_witness :
    (List.replicate 12288 (0:Nat)).length = 12288 ∧
    bytes256 (List.replicate 12288 (0:Nat)) ∧
    (((hllDenseAdd (List.replicate 12288 (0:Nat)) [97]).1 = 1 ↔
      patCount [97] > denseGet (List.replicate 12288 (0:Nat)) (patIndex [97])) ∧
    ((hllDenseAdd (List.replicate 12288 (0:Nat)) [97]).1 = 1 →
      denseGet (hllDenseAdd (List.replicate 12288 (0:Nat)) [97]).2 (patIndex [97]) =
        patCount [97] ∧
      ∀ j, j ≠ patIndex [97] →
        denseGet (hllDenseAdd (List.replicate 12288 (0:Nat)) [97]).2 j =
          denseGet (List.replicate 12288 (0:Nat)) j) ∧
    ((hllDenseAdd (List.replicate 12288 (0:Nat)) [97]).1 ≠ 1 →
      (hllDenseAdd (List.replicate 12288 (0:Nat)) [97]).1 = 0 ∧
      (hllDenseAdd (List.replicate 12288 (0:Nat)) [97]).2 = List.replicate 12288 (0:Nat)) ∧
    (∀ j, denseGet (List.replicate 12288 (0:Nat)) j ≤
      denseGet (hllDenseAdd (List.replicate 12288 (0:Nat)) [97]).2 j)) :=
  ⟨List.length_replicate 12288 0,
    fun b hmem => by rw [List.eq_of_mem_replicate hmem]; norm_num,
    dense_add_register_semantics (List.replicate 12288 0) [97]
      (List.length_replicate 12288 0)
      (fun b hmem => by rw [List.eq_of_mem_replicate hmem]; norm_num)⟩

/-! ## SparseCodec: the three opcodes ZERO, XZERO, VAL -/

/-- HLL_SPARSE_IS_ZERO: byte of shape 00xxxxxx. -/
def isZeroOp (b : Nat) : Bool := b &&& 192 == 0

/-- HLL_SPARSE_IS_XZERO: byte of shape 01xxxxxx. -/
def isXZeroOp (b : Nat) : Bool := b &&& 192 == 64

/-- HLL_SPARSE_IS_VAL: byte of shape 1vvvvvll. -/
def isValOp (b : Nat) : Bool := b &&& 128 != 0

/-- HLL_SPARSE_ZERO_LEN: run length of a ZERO opcode. -/
def zeroOpLen (b : Nat) : Nat := (b &&& 63) + 1

/-- HLL_SPARSE_XZERO_LEN: run length of an XZERO opcode (two bytes). A second
byte read one past the end of the payload yields the sds NUL byte 0. -/
def xzeroOpLen (b b2 : Nat) : Nat := (((b &&& 63) <<< 8) ||| b2) + 1

/-- HLL_SPARSE_VAL_VALUE: register value of a VAL opcode. -/
def valOpValue (b : Nat) : Nat := ((b >>> 2) &&& 31) + 1

/-- HLL_SPARSE_VAL_LEN: run length of a VAL opcode. -/
def valOpLen (b : Nat) : Nat := (b &&& 3) + 1

/-- HLL_SPARSE_VAL_SET: encode a VAL opcode byte. -/
def valOpByte (v l : Nat) : Nat := (((v - 1) <<< 2) ||| (l - 1)) ||| 128

/-- HLL_SPARSE_ZERO_SET: encode a ZERO opcode byte. -/
def zeroOpByte (l : Nat) : Nat := l - 1

/-- HLL_SPARSE_XZERO_SET: encode an XZERO opcode as two bytes. -/
def xzeroOpBytes (l : Nat) : List Nat := [((l - 1) >>> 8) ||| 64, (l - 1) &&& 255]

theorem valOpValue_le_32 (b : Nat) : valOpValue b ≤ 32 := by
  unfold valOpValue
  have : (b >>> 2) &&& 31 ≤ 31 := Nat.and_le_right
  omega

theorem zeroOpLen_pos (b : Nat) : 1 ≤ zeroOpLen b := by
  unfold zeroOpLen
  omega

theorem xzeroOpLen_pos (b b2 : Nat) : 1 ≤ xzeroOpLen b b2 := by
  unfold xzeroOpLen
  omega

theorem valOpLen_pos (b : Nat) : 1 ≤ valOpLen b := by
  unfold valOpLen
  omega

/-! ## Sparse to dense conversion (hllSparseToDense) -/

/-- Write a run of registers of value regval starting at index idx, as the
inner while loop of hllSparseToDense does. -/
def writeRun (regs : List Nat) (idx : Nat) : Nat → Nat → List Nat
  | 0, _ => regs
  | runlen + 1, regval => writeRun (denseSet regs idx regval) (idx + 1) runlen regval

/-- Opcode scan of hllSparseToDense: accumulate the covered register index
and write each VAL run into the dense register array. -/
def s2dLoop : List Nat → Nat → List Nat → Nat × List Nat
  | [], idx, regs => (idx, regs)
  | b :: rest, idx, regs =>
    if isZeroOp b then s2dLoop rest (idx + zeroOpLen b) regs
    else if isXZeroOp b then
      match rest with
      | b2 :: r2 => s2dLoop r2 (idx + xzeroOpLen b b2) regs
      | [] => (idx + xzeroOpLen b 0, regs)
    else s2dLoop rest (idx + valOpLen b) (writeRun regs idx (valOpLen b) (valOpValue b))

/-- hllSparseToDense: when the encoding byte is already DENSE the value is
returned unchanged; otherwise a fresh zeroed dense buffer is allocated, the
header is copied with encoding set to DENSE, the opcodes are replayed, and
the conversion fails when the final index is not 16384. -/
def hllSparseToDense (value : List Nat) : Option (List Nat) :=
  if value.getD 4 0 = 0 then some value
  else if (s2dLoop (value.drop 16) 0 (List.replicate 12288 0)).1 = 16384 then
    some (((value.take 16).set 4 0) ++ (s2dLoop (value.drop 16) 0 (List.replicate 12288 0)).2)
  else none

/-- Value that the sparse opcode stream encodes for register offset j: zero
inside ZERO and XZERO runs, the VAL value inside VAL runs, zero beyond the
covered range. This is the specification-side register assignment. -/
def sparseRegAt : List Nat → Nat → Nat
  | [], _ => 0
  | b :: rest, j =>
    if isZeroOp b then
      if j < zeroOpLen b then 0 else sparseRegAt rest (j - zeroOpLen b)
    else if isXZeroOp b then
      match rest with
      | b2 :: r2 => if j < xzeroOpLen b b2 then 0 else sparseRegAt r2 (j - xzeroOpLen b b2)
      | [] => 0
    else
      if j < valOpLen b then valOpValue b else sparseRegAt rest (j - valOpLen b)

/-- Total number of registers covered by a sparse opcode stream. -/
def sparseCoverage : List Nat → Nat
  | [] => 0
  | b :: rest =>
    if isZeroOp b then zeroOpLen b + sparseCoverage rest
    else if isXZeroOp b then
      match rest with
      | b2 :: r2 => xzeroOpLen b b2 + sparseCoverage r2
      | [] => xzeroOpLen b 0
    else valOpLen b + sparseCoverage rest

theorem sparseRegAt_le_32 : ∀ (payload : List Nat) (j : Nat), sparseRegAt payload j ≤ 32
  | [], _ => by simp [sparseRegAt]
  | b :: rest, j => by
    unfold sparseRegAt
    split
    · split
      · omega
      · exact sparseRegAt_le_32 rest _
    · split
      · split
        · split
          · omega
          · exact sparseRegAt_le_32 _ _
        · omega
      · split
        · exact valOpValue_le_32 b
        · exact sparseRegAt_le_32 rest _

theorem denseSet_oob {regs : List Nat} (hlen : regs.length = 12288) {r : Nat}
    (hr : 16384 ≤ r) (v : Nat) : denseSet regs r v = regs := by
  have h1 : 12288 ≤ denseByteIdx r := by
    unfold denseByteIdx
    omega
  unfold denseSet
  have e1 : (regs.set (denseByteIdx r) (denseSetB0 regs r v)).set (denseByteIdx r + 1)
      (denseSetB1 regs r v) = regs.set (denseByteIdx r) (denseSetB0 regs r v) :=
    List.set_eq_of_length_le (by simp [hlen]; omega)
  have e2 : regs.set (denseByteIdx r) (denseSetB0 regs r v) = regs :=
    List.set_eq_of_length_le (by rw [hlen]; omega)
  rw [e1, e2]

theorem writeRun_length : ∀ (l : Nat) (regs : List Nat) (idx v : Nat),
    (writeRun regs idx l v).length = regs.length
  | 0, _, _, _ => rfl
  | l + 1, regs, idx, v => by
    show (writeRun (denseSet regs idx v) (idx + 1) l v).length = regs.length
    rw [writeRun_length l _ _ v, denseSet_length]

theorem writeRun_bytes256 : ∀ (l : Nat) (regs : List Nat) (idx v : Nat),
    bytes256 regs → bytes256 (writeRun regs idx l v)
  | 0, _, _, _, hb => hb
  | l + 1, regs, idx, v, hb => by
    show bytes256 (writeRun (denseSet regs idx v) (idx + 1) l v)
    exact writeRun_bytes256 l _ _ v (denseSet_bytes256 hb idx v)

theorem denseGet_writeRun : ∀ (l : Nat) (regs : List Nat) (idx v : Nat),
    regs.length = 12288 → bytes256 regs → v < 64 →
    ∀ j, j < 16384 →
      denseGet (writeRun regs idx l v) j =
        if idx ≤ j ∧ j < idx + l then v else denseGet regs j
  | 0, regs, idx, v, _, _, _, j, _ => by
    show denseGet regs j = _
    rw [if_neg (by omega)]
  | l + 1, regs, idx, v, hlen, hb, hv, j, hj => by
    show denseGet (writeRun (denseSet regs idx v) (idx + 1) l v) j = _
    by_cases hidx : idx < 16384
    · rw [denseGet_writeRun l (denseSet regs idx v) (idx + 1) v
        (by rw [denseSet_length, hlen]) (denseSet_bytes256 hb idx v) hv j hj]
      rw [denseGet_denseSet hb hlen hidx hv j]
      split_ifs <;> first | rfl | omega
    · rw [denseSet_oob hlen (by omega) v]
      rw [denseGet_writeRun l regs (idx + 1) v hlen hb hv j hj]
      rw [if_neg (by omega), if_neg (by omega)]

theorem sparseRegAt_beyond : ∀ (payload : List Nat) (j : Nat),
    sparseCoverage payload ≤ j → sparseRegAt payload j = 0
  | [], _, _ => rfl
  | b :: rest, j, hcov => by
    unfold sparseRegAt
    unfold sparseCoverage at hcov
    split
    · rename_i hz
      rw [hz] at hcov
      simp at hcov
      rw [if_neg (by omega)]
      exact sparseRegAt_beyond rest _ (by omega)
    · rename_i hz
      rw [if_neg hz] at hcov
      split
      · rename_i hx
        split
        · rename_i b2 r2
          rw [hx] at hcov
          simp at hcov
          rw [if_neg (by omega)]
          exact sparseRegAt_beyond r2 _ (by omega)
        · rfl
      · rename_i hx
        rw [if_neg hx] at hcov
        have h1 : 1 ≤ valOpLen b := valOpLen_pos b
        rw [if_neg (by omega)]
        exact sparseRegAt_beyond rest _ (by omega)

theorem sparseRegAt_zero_in {b : Nat} (hz : isZeroOp b = true) (rest : List Nat)
    {j : Nat} (h : j < zeroOpLen b) : sparseRegAt (b :: rest) j = 0 := by
  conv_lhs => unfold sparseRegAt
  rw [if_pos hz, if_pos h]

theorem sparseRegAt_zero_skip {b : Nat} (hz : isZeroOp b = true) (rest : List Nat)
    {j : Nat} (h : zeroOpLen b ≤ j) :
    sparseRegAt (b :: rest) j = sparseRegAt rest (j - zeroOpLen b) := by
  conv_lhs => unfold sparseRegAt
  rw [if_pos hz, if_neg (Nat.not_lt.mpr h)]

theorem sparseRegAt_xzero_in {b : Nat} (hz : ¬ isZeroOp b = true)
    (hx : isXZeroOp b = true) (b2 : Nat) (r2 : List Nat) {j : Nat}
    (h : j < xzeroOpLen b b2) : sparseRegAt (b :: b2 :: r2) j = 0 := by
  conv_lhs => unfold sparseRegAt
  rw [if_neg hz, if_pos hx]
  show (if j < xzeroOpLen b b2 then 0 else sparseRegAt r2 (j - xzeroOpLen b b2)) = 0
  rw [if_pos h]

theorem sparseRegAt_xzero_skip {b : Nat} (hz : ¬ isZeroOp b = true)
    (hx : isXZeroOp b = true) (b2 : Nat) (r2 : List Nat) {j : Nat}
    (h : xzeroOpLen b b2 ≤ j) :
    sparseRegAt (b :: b2 :: r2) j = sparseRegAt r2 (j - xzeroOpLen b b2) := by
  conv_lhs => unfold sparseRegAt
  rw [if_neg hz, if_pos hx]
  show (if j < xzeroOpLen b b2 then 0 else sparseRegAt r2 (j - xzeroOpLen b b2)) =
    sparseRegAt r2 (j - xzeroOpLen b b2)
  rw [if_neg (Nat.not_lt.mpr h)]

theorem sparseRegAt_xzero_nil {b : Nat} (hz : ¬ isZeroOp b = true)
    (hx : isXZeroOp b = true) (j : Nat) : sparseRegAt [b] j = 0 := by
  conv_lhs => unfold sparseRegAt
  rw [if_neg hz, if_pos hx]

theorem sparseRegAt_val_in {b : Nat} (hz : ¬ isZeroOp b = true)
    (hx : ¬ isXZeroOp b = true) (rest : List Nat) {j : Nat} (h : j < valOpLen b) :
    sparseRegAt (b :: rest) j = valOpValue b := by
  conv_lhs => unfold sparseRegAt
  rw [if_neg hz, if_neg hx, if_pos h]

theorem sparseRegAt_val_skip {b : Nat} (hz : ¬ isZeroOp b = true)
    (hx : ¬ isXZeroOp b = true) (rest : List Nat) {j : Nat} (h : valOpLen b ≤ j) :
    sparseRegAt (b :: rest) j = sparseRegAt rest (j - valOpLen b) := by
  conv_lhs => unfold sparseRegAt
  rw [if_neg hz, if_neg hx, if_neg (Nat.not_lt.mpr h)]

theorem sparseCoverage_zero {b : Nat} (hz : isZeroOp b = true) (rest : List Nat) :
    sparseCoverage (b :: rest) = zeroOpLen b + sparseCoverage rest := by
  conv_lhs => unfold sparseCoverage
  rw [if_pos hz]

theorem sparseCoverage_xzero {b : Nat} (hz : ¬ isZeroOp b = true)
    (hx : isXZeroOp b = true) (b2 : Nat) (r2 : List Nat) :
    sparseCoverage (b :: b2 :: r2) = xzeroOpLen b b2 + sparseCoverage r2 := by
  conv_lhs => unfold sparseCoverage
  rw [if_neg hz, if_pos hx]

theorem sparseCoverage_xzero_nil {b : Nat} (hz : ¬ isZeroOp b = true)
    (hx : isXZeroOp b = true) : sparseCoverage [b] = xzeroOpLen b 0 := by
  conv_lhs => unfold sparseCoverage
  rw [if_neg hz, if_pos hx]

theorem sparseCoverage_val {b : Nat} (hz : ¬ isZeroOp b = true)
    (hx : ¬ isXZeroOp b = true) (rest : List Nat) :
    sparseCoverage (b :: rest) = valOpLen b + sparseCoverage rest := by
  conv_lhs => unfold sparseCoverage
  rw [if_neg hz, if_neg hx]

theorem s2dLoop_zero {b : Nat} (hz : isZeroOp b = true) (rest : List Nat)
    (idx : Nat) (regs : List Nat) :
    s2dLoop (b :: rest) idx regs = s2dLoop rest (idx + zeroOpLen b) regs := by
  conv_lhs => unfold s2dLoop
  rw [if_pos hz]

theorem s2dLoop_xzero {b : Nat} (hz : ¬ isZeroOp b = true) (hx : isXZeroOp b = true)
    (b2 : Nat) (r2 : List Nat) (idx : Nat) (regs : List Nat) :
    s2dLoop (b :: b2 :: r2) idx regs = s2dLoop r2 (idx + xzeroOpLen b b2) regs := by
  conv_lhs => unfold s2dLoop
  rw [if_neg hz, if_pos hx]

theorem s2dLoop_xzero_nil {b : Nat} (hz : ¬ isZeroOp b = true)
    (hx : isXZeroOp b = true) (idx : Nat) (regs : List Nat) :
    s2dLoop [b] idx regs = (idx + xzeroOpLen b 0, regs) := by
  conv_lhs => unfold s2dLoop
  rw [if_neg hz, if_pos hx]

theorem s2dLoop_val {b : Nat} (hz : ¬ isZeroOp b = true) (hx : ¬ isXZeroOp b = true)
    (rest : List Nat) (idx : Nat) (regs : List Nat) :
    s2dLoop (b :: rest) idx regs =
      s2dLoop rest (idx + valOpLen b) (writeRun regs idx (valOpLen b) (valOpValue b)) := by
  conv_lhs => unfold s2dLoop
  rw [if_neg hz, if_neg hx]

theorem s2dLoop_spec (payload : List Nat) (idx0 : Nat) (regs : List Nat) :
    regs.length = 12288 → bytes256 regs →
    (∀ j, idx0 ≤ j → j < 16384 → denseGet regs j = 0) →
    (s2dLoop payload idx0 regs).1 = idx0 + sparseCoverage payload ∧
    (s2dLoop payload idx0 regs).2.length = 12288 ∧
    bytes256 (s2dLoop payload idx0 regs).2 ∧
    (∀ j, j < 16384 →
      denseGet (s2dLoop payload idx0 regs).2 j =
        if idx0 ≤ j then sparseRegAt payload (j - idx0) else denseGet regs j) := by
  induction payload, idx0, regs using s2dLoop.induct with
  | case1 idx regs =>
    intro hlen hb hz
    refine ⟨by simp [s2dLoop, sparseCoverage], by simpa [s2dLoop] using hlen,
      by simpa [s2dLoop] using hb, ?_⟩
    intro j hj
    show denseGet regs j = _
    by_cases hij : idx ≤ j
    · rw [if_pos hij]
      show denseGet regs j = 0
      exact hz j hij hj
    · rw [if_neg hij]
  | case2 b rest idx regs hzop ih =>
    intro hlen hb hz
    have hz' : ∀ j, idx + zeroOpLen b ≤ j → j < 16384 → denseGet regs j = 0 :=
      fun j h1 h2 => hz j (by omega) h2
    obtain ⟨ih1, ih2, ih3, ih4⟩ := ih hlen hb hz'
    rw [s2dLoop_zero hzop rest idx regs]
    refine ⟨by rw [ih1, sparseCoverage_zero hzop rest]; omega, ih2, ih3, ?_⟩
    intro j hj
    rw [ih4 j hj]
    by_cases hij : idx ≤ j
    · rw [if_pos hij]
      by_cases hin : idx + zeroOpLen b ≤ j
      · rw [if_pos (by omega : idx + zeroOpLen b ≤ j),
          sparseRegAt_zero_skip hzop rest (by omega : zeroOpLen b ≤ j - idx)]
        congr 1
        omega
      · rw [if_neg hin, sparseRegAt_zero_in hzop rest (by omega : j - idx < zeroOpLen b)]
        exact hz j hij hj
    · rw [if_neg hij, if_neg (by omega)]
  | case3 b idx regs hzop hxop b2 r2 ih =>
    intro hlen hb hz
    have hz' : ∀ j, idx + xzeroOpLen b b2 ≤ j → j < 16384 → denseGet regs j = 0 :=
      fun j h1 h2 => hz j (by omega) h2
    obtain ⟨ih1, ih2, ih3, ih4⟩ := ih hlen hb hz'
    rw [s2dLoop_xzero hzop hxop b2 r2 idx regs]
    refine ⟨by rw [ih1, sparseCoverage_xzero hzop hxop b2 r2]; omega, ih2, ih3, ?_⟩
    intro j hj
    rw [ih4 j hj]
    by_cases hij : idx ≤ j
    · rw [if_pos hij]
      by_cases hin : idx + xzeroOpLen b b2 ≤ j
      · rw [if_pos hin,
          sparseRegAt_xzero_skip hzop hxop b2 r2 (by omega : xzeroOpLen b b2 ≤ j - idx)]
        congr 1
        omega
      · rw [if_neg hin,
          sparseRegAt_xzero_in hzop hxop b2 r2 (by omega : j - idx < xzeroOpLen b b2)]
        exact hz j hij hj
    · rw [if_neg hij, if_neg (by omega)]
  | case4 b idx regs hzop hxop =>
    intro hlen hb hz
    rw [s2dLoop_xzero_nil hzop hxop idx regs]
    refine ⟨by rw [sparseCoverage_xzero_nil hzop hxop], hlen, hb, ?_⟩
    intro j hj
    show denseGet regs j = _
    by_cases hij : idx ≤ j
    · rw [if_pos hij, sparseRegAt_xzero_nil hzop hxop]
      exact hz j hij hj
    · rw [if_neg hij]
  | case5 b rest idx regs hzop hxop ih =>
    intro hlen hb hz
    have hlen' : (writeRun regs idx (valOpLen b) (valOpValue b)).length = 12288 := by
      rw [writeRun_length, hlen]
    have hb' : bytes256 (writeRun regs idx (valOpLen b) (valOpValue b)) :=
      writeRun_bytes256 _ _ _ _ hb
    have hvv : valOpValue b < 64 :=
      Nat.lt_of_le_of_lt (valOpValue_le_32 b) (by norm_num)
    have hwr := denseGet_writeRun (valOpLen b) regs idx (valOpValue b) hlen hb hvv
    have hz' : ∀ j, idx + valOpLen b ≤ j → j < 16384 →
        denseGet (writeRun regs idx (valOpLen b) (valOpValue b)) j = 0 := by
      intro j h1 h2
      rw [hwr j h2, if_neg (by omega)]
      exact hz j (by omega) h2
    obtain ⟨ih1, ih2, ih3, ih4⟩ := ih hlen' hb' hz'
    rw [s2dLoop_val hzop hxop rest idx regs]
    refine ⟨by rw [ih1, sparseCoverage_val hzop hxop rest]; omega, ih2, ih3, ?_⟩
    intro j hj
    rw [ih4 j hj]
    by_cases hij : idx ≤ j
    · rw [if_pos hij]
      by_cases hin : idx + valOpLen b ≤ j
      · rw [if_pos hin,
          sparseRegAt_val_skip hzop hxop rest (by omega : valOpLen b ≤ j - idx)]
        congr 1
        omega
      · rw [if_neg hin,
          sparseRegAt_val_in hzop hxop rest (by omega : j - idx < valOpLen b)]
        rw [hwr j hj, if_pos (by omega)]
    · rw [if_neg hij, if_neg (by omega)]
      rw [hwr j hj, if_neg (by omega)]

theorem zeros_getD {regs : List Nat} (h : ∀ b ∈ regs, b = 0) (k : Nat) :
    regs.getD k 0 = 0 := by
  rw [List.getD_eq_getElem?_getD]
  cases hk : regs[k]? with
  | none => simp
  | some b => simpa using h b (List.getElem?_mem hk)

theorem denseGet_zero_list {regs : List Nat} (h : ∀ b ∈ regs, b = 0) (j : Nat) :
    denseGet regs j = 0 := by
  unfold denseGet
  rw [zeros_getD h, zeros_getD h]
  simp

theorem replicate_zeros (n : Nat) : ∀ b ∈ List.replicate n (0:Nat), b = 0 :=
  fun b hmem => List.eq_of_mem_replicate hmem

theorem replicate_bytes256 (n : Nat) : bytes256 (List.replicate n (0:Nat)) :=
  fun b hmem => by rw [List.eq_of_mem_replicate hmem]; norm_num

/-- Claim C6: for a sparse-encoded sketch, hllSparseToDense succeeds exactly
when the opcode scan covers 16384 registers; on success every 6-bit register
of the produced dense buffer equals the value the sparse opcodes encoded for
that index (zero inside ZERO/XZERO runs, the VAL value inside VAL runs), and
the header is copied with the encoding byte set to DENSE. -/
theorem sparse_to_dense_register_equiv (buf : List Nat) (henc : buf.getD 4 0 ≠ 0) :
    (sparseCoverage (buf.drop 16) = 16384 →
      ∃ regs, hllSparseToDense buf = some (((buf.take 16).set 4 0) ++ regs) ∧
        regs.length = 12288 ∧
        ∀ j, j < 16384 → denseGet regs j = sparseRegAt (buf.drop 16) j) ∧
    (sparseCoverage (buf.drop 16) ≠ 16384 → hllSparseToDense buf = none) := by
  obtain ⟨h1, h2, h3, h4⟩ := s2dLoop_spec (buf.drop 16) 0 (List.replicate 12288 0)
    (List.length_replicate _ _) (replicate_bytes256 _)
    (fun j _ _ => denseGet_zero_list (replicate_zeros _) j)
  constructor
  · intro hcov
    refine ⟨(s2dLoop (buf.drop 16) 0 (List.replicate 12288 0)).2, ?_, h2, ?_⟩
    · unfold hllSparseToDense
      rw [if_neg henc, if_pos (by rw [h1, hcov])]
    · intro j hj
      rw [h4 j hj, if_pos (Nat.zero_le j), Nat.sub_zero]
  · intro hcov
    unfold hllSparseToDense
    rw [if_neg henc, if_neg (by rw [h1]; omega)]

/-! ## SparseMutator (hllSparseAdd) -/

/-- Result of Step 1 of hllSparseAdd, the scan for the opcode covering the
register index: found carries the bytes before the previous opcode, the
previous opcode bytes (none when the current opcode is the first), the
current opcode bytes, the bytes after it, and the index of the first
register the current opcode covers. fellOff is the case in which the scan
runs past the end of the payload without covering the index. -/
inductive SparseLoc where
  | found (before : List Nat) (prevOp : Option (List Nat)) (cur : List Nat)
      (tail : List Nat) (first : Nat) : SparseLoc
  | fellOff (before : List Nat) (prevOp : Option (List Nat)) : SparseLoc
deriving DecidableEq

/-- Number of registers covered by the opcode starting the byte list
(span in the Step 1 loop); an XZERO cut short by the end of the payload
reads the sds NUL as its second byte. -/
def opSpan : List Nat → Nat
  | [] => 0
  | b :: rest =>
    if isZeroOp b then zeroOpLen b
    else if isValOp b then valOpLen b
    else xzeroOpLen b (rest.headD 0)

/-- The Step 1 scan of hllSparseAdd. The conditionals mirror the source
order: ZERO first, then VAL, else XZERO. The loop breaks as soon as
index <= first + span - 1. -/
def sparseLocateGo (index : Nat) : List Nat → List Nat → Option (List Nat) → Nat → SparseLoc
  | [], before, prevOp, _ => .fellOff before prevOp
  | b :: rest, before, prevOp, first =>
    if isZeroOp b then
      if index ≤ first + zeroOpLen b - 1 then .found before prevOp [b] rest first
      else sparseLocateGo index rest (before ++ prevOp.getD []) (some [b]) (first + zeroOpLen b)
    else if isValOp b then
      if index ≤ first + valOpLen b - 1 then .found before prevOp [b] rest first
      else sparseLocateGo index rest (before ++ prevOp.getD []) (some [b]) (first + valOpLen b)
    else
      match rest with
      | b2 :: r2 =>
        if index ≤ first + xzeroOpLen b b2 - 1 then .found before prevOp [b, b2] r2 first
        else sparseLocateGo index r2 (before ++ prevOp.getD []) (some [b, b2])
          (first + xzeroOpLen b b2)
      | [] =>
        if index ≤ first + xzeroOpLen b 0 - 1 then .found before prevOp [b] [] first
        else .fellOff (before ++ prevOp.getD []) (some [b])

/-- Locate the opcode covering a register index in a sparse payload. -/
def sparseLocate (payload : List Nat) (index : Nat) : SparseLoc :=
  sparseLocateGo index payload [] none 0

/-- Encode a zero run of the given length as the source split does: XZERO
when the length exceeds 64, else ZERO. -/
def sparseZeroSeqPart (len : Nat) : List Nat :=
  if len > 64 then xzeroOpBytes len else [zeroOpByte len]

/-- The replacement opcode sequence built in the general split (Step D):
for ZERO/XZERO a left zero run, VAL(count,1), and a right zero run; for a
VAL run the left and right parts keep the old value. -/
def sparseNewSeq (cur : List Nat) (first index last count : Nat) : List Nat :=
  if isValOp (cur.headD 0) then
    (if index ≠ first then [valOpByte (valOpValue (cur.headD 0)) (index - first)] else []) ++
    [valOpByte count 1] ++
    (if index ≠ last then [valOpByte (valOpValue (cur.headD 0)) (last - index)] else [])
  else
    (if index ≠ first then sparseZeroSeqPart (index - first) else []) ++
    [valOpByte count 1] ++
    (if index ≠ last then sparseZeroSeqPart (last - index) else [])

/-- Step 4 of hllSparseAdd: scan up to 5 opcodes, fusing two adjacent VAL
opcodes with the same value whose combined run length still fits; after a
fusion the scan stays at the same position to allow chained merges. -/
def valMergeScan : Nat → List Nat → List Nat
  | 0, rest => rest
  | _ + 1, [] => []
  | fuel + 1, b :: rest =>
    if isXZeroOp b then
      match rest with
      | b2 :: r2 => b :: b2 :: valMergeScan fuel r2
      | [] => [b]
    else if isZeroOp b then b :: valMergeScan fuel rest
    else
      match rest with
      | b2 :: r2 =>
        if isValOp b2 = true ∧ valOpValue b = valOpValue b2 ∧
            valOpLen b + valOpLen b2 ≤ 4 then
          valMergeScan fuel (valOpByte (valOpValue b) (valOpLen b + valOpLen b2) :: r2)
        else b :: valMergeScan fuel rest
      | [] => [b]

/-- HLL_INVALIDATE_CACHE: set the most significant bit of card[0], which is
byte 8 of the buffer. -/
def setInvalidCache (buf : List Nat) : List Nat := buf.set 8 (buf.getD 8 0 ||| 128)

/-- HLL_VALID_CACHE: the cache is treated as valid when the most significant
bit of card[0] (byte 8 of the buffer) is clear. -/
def hllValidCache (buf : List Nat) : Bool := buf.getD 8 0 &&& 128 == 0

/-- Splice the replacement sequence over the current opcode (Step 3), then
run the adjacent-VAL merge from the previous opcode (Step 4) and set the
cache-invalid flag (Step 5). The take keeps exactly the bytes inside the
new sds length, dropping a byte the C memcpy writes beyond it when the
current opcode was a truncated two-byte XZERO at the end of the payload. -/
def spliceAndMerge (buf before : List Nat) (prevOp : Option (List Nat))
    (seq tail : List Nat) (newPayloadLen : Nat) : List Nat :=
  setInvalidCache (buf.take 16 ++ before ++
    valMergeScan 5 (((before ++ prevOp.getD [] ++ seq ++ tail).take newPayloadLen).drop
      before.length))

/-- Outcome of the in-place part of hllSparseAdd. -/
inductive SparseAddOut where
  | unchanged
  | corrupt
  | promote
  | updated (newbuf : List Nat)
deriving DecidableEq

/-- Step D of hllSparseAdd: build the replacement sequence; promote when it
grows the buffer and the resulting sds length would exceed
hll_sparse_max_bytes, otherwise splice it in. -/
def sparseAddSplit (buf before : List Nat) (prevOp : Option (List Nat))
    (cur tail : List Nat) (first index count maxBytes : Nat) : SparseAddOut :=
  if (sparseNewSeq cur first index (first + opSpan cur - 1) count).length >
      (if isXZeroOp (cur.headD 0) then 2 else 1) ∧
      buf.length + ((sparseNewSeq cur first index (first + opSpan cur - 1) count).length -
        (if isXZeroOp (cur.headD 0) then 2 else 1)) > maxBytes then
    .promote
  else
    .updated (spliceAndMerge buf before prevOp
      (sparseNewSeq cur first index (first + opSpan cur - 1) count) tail
      ((buf.drop 16).length +
        (sparseNewSeq cur first index (first + opSpan cur - 1) count).length -
        (if isXZeroOp (cur.headD 0) then 2 else 1)))

/-- The in-place part of hllSparseAdd for a register write of count at
index: promote on count > 32; locate the covering opcode; cases A (VAL with
old >= count: unchanged), B (VAL of run length 1: rewrite in place), C (ZERO
of run length 1: rewrite in place), else the general split. An empty payload
makes the scan exit with span == 0, reported as corrupt. A scan that falls
off the end of a nonempty payload leaves the buffer bytes unchanged apart
from the merge pass and the cache-invalid flag, and reports an update. -/
def hllSparseAddCore (buf : List Nat) (index count maxBytes : Nat) : SparseAddOut :=
  if count > 32 then .promote
  else
    match sparseLocate (buf.drop 16) index with
    | .fellOff before prevOp =>
      if (buf.drop 16).isEmpty then .corrupt
      else .updated (spliceAndMerge buf before prevOp [] [] (buf.drop 16).length)
    | .found before prevOp cur tail first =>
      if isValOp (cur.headD 0) then
        if valOpValue (cur.headD 0) ≥ count then .unchanged
        else if valOpLen (cur.headD 0) = 1 then
          .updated (spliceAndMerge buf before prevOp [valOpByte count 1] tail
            (buf.drop 16).length)
        else sparseAddSplit buf before prevOp cur tail first index count maxBytes
      else if isZeroOp (cur.headD 0) = true ∧ zeroOpLen (cur.headD 0) = 1 then
        .updated (spliceAndMerge buf before prevOp [valOpByte count 1] tail
          (buf.drop 16).length)
      else sparseAddSplit buf before prevOp cur tail first index count maxBytes

/-- hllSparseAdd: compute (count, index) from the element, run the in-place
update, and on promotion convert to dense and perform the dense add. -/
def hllSparseAdd (buf ele : List Nat) (maxBytes : Nat) : Int × List Nat :=
  match hllSparseAddCore buf (hllPatLen ele).2 (hllPatLen ele).1 maxBytes with
  | .unchanged => (0, buf)
  | .corrupt => (-1, buf)
  | .updated newbuf => (1, newbuf)
  | .promote =>
    match hllSparseToDense buf with
    | none => (-1, buf)
    | some d => ((hllDenseAdd (d.drop 16) ele).1,
        d.take 16 ++ (hllDenseAdd (d.drop 16) ele).2)

/-- hllAdd: dispatch on the encoding byte; for the sparse case the caller
copy is only written back when the return value is positive. -/
def hllAdd (value ele : List Nat) (maxBytes : Nat) : Int × List Nat :=
  if value.getD 4 0 = 0 then
    ((hllDenseAdd (value.drop 16) ele).1,
      value.take 16 ++ (hllDenseAdd (value.drop 16) ele).2)
  else if value.getD 4 0 = 1 then
    if (hllSparseAdd value ele maxBytes).1 > 0 then hllSparseAdd value ele maxBytes
    else ((hllSparseAdd value ele maxBytes).1, value)
  else (-1, value)

/-! ## Builder and header validation (createHLLObject, isHLLObjectOrReply) -/

/-- createHLLObject: a zero-filled buffer of 16 + 2*ceil(16384/16384) = 18
bytes with magic HYLL, encoding SPARSE, and the XZERO payload covering all
16384 registers. With P = 14 the while loop of the source emits exactly one
XZERO opcode of run length 16384. -/
def createHLLObject : List Nat :=
  [72, 89, 76, 76, 1, 0, 0, 0, 0, 0, 0, 0, 0, 0, 0, 0] ++ xzeroOpBytes 16384

/-- isHLLObjectOrReply: length at least the header size, magic HYLL,
encoding at most 1, and for a dense sketch the exact dense size 12304. -/
def isHLLObjectOrReply (value : List Nat) : Bool :=
  decide (16 ≤ value.length) && (value.getD 0 0 == 72) && (value.getD 1 0 == 89) &&
  (value.getD 2 0 == 76) && (value.getD 3 0 == 76) && decide (value.getD 4 0 ≤ 1) &&
  (!(value.getD 4 0 == 0) || (value.length == 12304))

/-! ## Api: PFADD / PFCOUNT / PFMERGE over an abstract backend -/

/-- The storage backend seen by the Api: a map from keys to stored byte
strings. Get is application, Set is setStore, and a missing key is the
backend's NotFound. -/
def Store : Type := Nat → Option (List Nat)

/-- Backend Set: point update of the store. -/
def setStore (db : Store) (key : Nat) (v : List Nat) : Store :=
  fun k => if k = key then some v else db k

/-- Result of an Api call: the integer replies and the two error kinds the
HLL core can produce (symbolic stand-ins for the negative error codes
ERR_INVALID_HLL_TYPE and ERR_CORRUPTED_HLL_VALUE). -/
inductive PFRes where
  | ok (n : Nat)
  | errInvalidHLLType
  | errCorrupted
deriving DecidableEq

/-- The member loop of Ardb::PFAdd: apply hllAdd for each member, counting
updates; a -1 from hllAdd aborts the whole loop. -/
def pfAddLoop (maxB : Nat) : List (List Nat) → List Nat → Nat → Option (List Nat × Nat)
  | [], value, updated => some (value, updated)
  | m :: ms, value, updated =>
    if (hllAdd value m maxB).1 = -1 then none
    else if (hllAdd value m maxB).1 = 1 then
      pfAddLoop maxB ms (hllAdd value m maxB).2 (updated + 1)
    else pfAddLoop maxB ms (hllAdd value m maxB).2 updated

/-- Tail of Ardb::PFAdd after the Get/create: run the member loop; on
corruption return the error without any Set; otherwise Set the buffer with
the cache-invalid flag only when something was updated. -/
def pfAddFinish (db : Store) (key : Nat) (r : Option (List Nat × Nat)) : PFRes × Store :=
  match r with
  | none => (.errCorrupted, db)
  | some (v2, upd) =>
    if upd ≠ 0 then (.ok 1, setStore db key (setInvalidCache v2)) else (.ok 0, db)

/-- Ardb::PFAdd: Get the key (validating an existing value, creating an
empty sketch and counting it as an update when absent), run the member
loop, and Set only when updated. -/
def PFAdd (db : Store) (key : Nat) (members : List (List Nat)) (maxB : Nat) :
    PFRes × Store :=
  match db key with
  | some v =>
    if isHLLObjectOrReply v then pfAddFinish db key (pfAddLoop maxB members v 0)
    else (.errInvalidHLLType, db)
  | none => pfAddFinish db key (pfAddLoop maxB members createHLLObject 1)

/-- Inner while loop of the sparse branch of hllMerge: raise max over one
VAL run. -/
def mergeMaxRun (mx : List Nat) (i : Nat) : Nat → Nat → List Nat
  | 0, _ => mx
  | l + 1, v => mergeMaxRun (if v > mx.getD i 0 then mx.set i v else mx) (i + 1) l v

/-- Sparse branch of hllMerge: walk the opcodes raising max over VAL runs;
fail when the scan does not cover exactly 16384 registers. -/
def hllMergeSparseLoop : List Nat → Nat → List Nat → Option (List Nat)
  | [], i, mx => if i = 16384 then some mx else none
  | b :: rest, i, mx =>
    if isZeroOp b then hllMergeSparseLoop rest (i + zeroOpLen b) mx
    else if isXZeroOp b then
      match rest with
      | b2 :: r2 => hllMergeSparseLoop r2 (i + xzeroOpLen b b2) mx
      | [] => if i + xzeroOpLen b 0 = 16384 then some mx else none
    else hllMergeSparseLoop rest (i + valOpLen b)
      (mergeMaxRun mx i (valOpLen b) (valOpValue b))

/-- hllMerge: merge a validated sketch into the max register array, taking
the register-wise maximum; dense sketches always succeed, sparse sketches
fail on a coverage mismatch. -/
def hllMerge (mx : List Nat) (hll : List Nat) : Option (List Nat) :=
  if hll.getD 4 0 = 0 then
    some ((List.range 16384).foldl
      (fun acc i => if denseGet (hll.drop 16) i > acc.getD i 0
        then acc.set i (denseGet (hll.drop 16) i) else acc) mx)
  else hllMergeSparseLoop (hll.drop 16) 0 mx

/-- Source loop of Ardb::PFMerge over the keys it actually visits: Get each
key, skip missing ones, validate and merge-max present ones. -/
def pfMergeSources (db : Store) : List Nat → List Nat → Except PFRes (List Nat)
  | [], mx => .ok mx
  | k :: ks, mx =>
    match db k with
    | none => pfMergeSources db ks mx
    | some hll =>
      if isHLLObjectOrReply hll then
        match hllMerge mx hll with
        | some mx2 => pfMergeSources db ks mx2
        | none => .error .errCorrupted
      else .error .errInvalidHLLType

/-- Final register write loop of Ardb::PFMerge: write max[j] into every
dense register of the destination. -/
def pfMergeWriteRegs (regs mx : List Nat) : List Nat :=
  (List.range 16384).foldl (fun acc j => denseSet acc j (mx.getD j 0)) regs

/-- Destination phase of Ardb::PFMerge: force the destination to dense,
write the max registers, invalidate the cache and Set. -/
def pfMergeFinish (db : Store) (destkey : Nat) (mx hll : List Nat) : PFRes × Store :=
  match hllSparseToDense hll with
  | none => (.errCorrupted, db)
  | some d =>
    (.ok 0, setStore db destkey
      (setInvalidCache (d.take 16 ++ pfMergeWriteRegs (d.drop 16) mx)))

/-- Ardb::PFMerge. The source loop starts at j = 1, so the first source key
of srckeys is never read: the loop runs over srckeys.drop 1. -/
def PFMerge (db : Store) (destkey : Nat) (srckeys : List Nat) : PFRes × Store :=
  match pfMergeSources db (srckeys.drop 1) (List.replicate 16384 0) with
  | .error e => (e, db)
  | .ok mx =>
    match db destkey with
    | some v =>
      if isHLLObjectOrReply v then pfMergeFinish db destkey mx v
      else (.errInvalidHLLType, db)
    | none => pfMergeFinish db destkey mx createHLLObject

/-! ## Claim C10: a zero return from hllAdd leaves the buffer identical -/

/-- Claim C10: whenever the per-encoding add hllAdd reports Unchanged (0),
the sketch byte string is byte-for-byte identical afterward: same length,
same header including the cached cardinality and its validity flag, and
same payload. -/
theorem hllAdd_unchanged_frame (value ele : List Nat) (maxB : Nat)
    (h : (hllAdd value ele maxB).1 = 0) : (hllAdd value ele maxB).2 = value := by
  unfold hllAdd at h ⊢
  by_cases h0 : value.getD 4 0 = 0
  · rw [if_pos h0] at h ⊢
    unfold hllDenseAdd at h ⊢
    by_cases hgt : (hllPatLen ele).1 > denseGet (value.drop 16) (hllPatLen ele).2
    · rw [if_pos hgt] at h
      simp at h
    · rw [if_neg hgt]
      simp [List.take_append_drop]
  · rw [if_neg h0] at h ⊢
    by_cases h1 : value.getD 4 0 = 1
    · rw [if_pos h1] at h ⊢
      by_cases hpos : (hllSparseAdd value ele maxB).1 > 0
      · rw [if_pos hpos] at h
        omega
      · rw [if_neg hpos]
    · rw [if_neg h1] at h
      simp at h

/-- Witness for C10: a sparse sketch holding VAL(32, 1) at register 12711,
the register the element 0x61 hashes to, so the add is a no-change. -/
theorem hllAdd_unchanged_frame_witness :
    (hllAdd [72, 89, 76, 76, 1, 0, 0, 0, 0, 0, 0, 0, 0, 0, 0, 0, 113, 166, 252, 78, 87]
      [97] 3000).1 = 0 ∧
    (hllAdd [72, 89, 76, 76, 1, 0, 0, 0, 0, 0, 0, 0, 0, 0, 0, 0, 113, 166, 252, 78, 87]
      [97] 3000).2 =
      [72, 89, 76, 76, 1, 0, 0, 0, 0, 0, 0, 0, 0, 0, 0, 0, 113, 166, 252, 78, 87] :=
  ⟨by decide, hllAdd_unchanged_frame _ [97] 3000 (by decide)⟩

/-! ## Claim C9: corruption during PFADD aborts without a Set -/

/-- Claim C9: when some member's add reports corruption (hllAdd returns -1,
making the member loop fail), PFAdd returns the CorruptedHLL error and no
Set is issued: the store is returned exactly as it was. -/
theorem pfadd_corruption_aborts_without_set (db : Store) (key : Nat)
    (members : List (List Nat)) (maxB : Nat) (v0 : List Nat) (u0 : Nat)
    (hstart : (db key = some v0 ∧ isHLLObjectOrReply v0 = true ∧ u0 = 0) ∨
      (db key = none ∧ v0 = createHLLObject ∧ u0 = 1))
    (hloop : pfAddLoop maxB members v0 u0 = none) :
    PFAdd db key members maxB = (.errCorrupted, db) := by
  unfold PFAdd
  rcases hstart with ⟨hg, hv, hu⟩ | ⟨hg, hv, hu⟩
  · subst hu
    rw [hg]
    show (if isHLLObjectOrReply v0 = true then
      pfAddFinish db key (pfAddLoop maxB members v0 0) else (.errInvalidHLLType, db)) = _
    rw [if_pos hv, hloop]
    rfl
  · subst hv
    subst hu
    rw [hg]
    show pfAddFinish db key (pfAddLoop maxB members createHLLObject 1) = _
    rw [hloop]
    rfl

/-- Witness for C9: the stored value is a bare 16-byte header with sparse
encoding and empty payload, making the opcode scan exit with span == 0 and
hllSparseAdd return -1 for any member. -/
theorem pfadd_corruption_aborts_without_set_witness :
    ((fun k => if k = 1 then
        some [72, 89, 76, 76, 1, 0, 0, 0, 0, 0, 0, 0, 0, 0, 0, 0] else none) : Store) 1 =
      some [72, 89, 76, 76, 1, 0, 0, 0, 0, 0, 0, 0, 0, 0, 0, 0] ∧
    isHLLObjectOrReply [72, 89, 76, 76, 1, 0, 0, 0, 0, 0, 0, 0, 0, 0, 0, 0] = true ∧
    pfAddLoop 3000 [[97]] [72, 89, 76, 76, 1, 0, 0, 0, 0, 0, 0, 0, 0, 0, 0, 0] 0 = none ∧
    PFAdd (fun k => if k = 1 then
        some [72, 89, 76, 76, 1, 0, 0, 0, 0, 0, 0, 0, 0, 0, 0, 0] else none) 1 [[97]] 3000 =
      (.errCorrupted, fun k => if k = 1 then
        some [72, 89, 76, 76, 1, 0, 0, 0, 0, 0, 0, 0, 0, 0, 0, 0] else none) :=
  ⟨by decide, by decide, by decide,
    pfadd_corruption_aborts_without_set _ 1 [[97]] 3000
      [72, 89, 76, 76, 1, 0, 0, 0, 0, 0, 0, 0, 0, 0, 0, 0] 0
      (Or.inl ⟨rfl, by decide, rfl⟩) (by decide)⟩

/-! ## Claim C7: PFADD on a missing key with no members -/

/-- Counterexample to C7 as stated: the stored buffer is not the claimed
18 bytes with 8 zero cardinality bytes; byte 8 is 0x80 because PFAdd sets
the cache-invalid flag (card[0] |= 0x80) before issuing the Set. -/
theorem pfadd_empty_create_cex :
    (PFAdd (fun _ => none) 1 [] 3000).1 = .ok 1 ∧
    (PFAdd (fun _ => none) 1 [] 3000).2 1 =
      some [72, 89, 76, 76, 1, 0, 0, 0, 128, 0, 0, 0, 0, 0, 0, 0, 127, 255] ∧
    ([72, 89, 76, 76, 1, 0, 0, 0, 128, 0, 0, 0, 0, 0, 0, 0, 127, 255] : List Nat) ≠
      [72, 89, 76, 76, 1, 0, 0, 0, 0, 0, 0, 0, 0, 0, 0, 0, 127, 255] := by
  refine ⟨by decide, ?_, by decide⟩
  show (if (1:Nat) = 1 then some (setInvalidCache createHLLObject) else none) = _
  decide

/-- Amended claim C7: PFAdd on a missing key with an empty member list
returns 1, and the stored buffer is exactly 18 bytes: magic HYLL, encoding
byte 1, three zero reserved bytes, a cardinality field whose first byte is
0x80 (the cache-invalid flag the mutating PFADD sets) with the remaining
seven bytes zero, and the two bytes 0x7f 0xff encoding a single XZERO run
of 16384 registers. -/
theorem pfadd_empty_create_stores_invalidated_sketch :
    (PFAdd (fun _ => none) 1 [] 3000).1 = .ok 1 ∧
    (PFAdd (fun _ => none) 1 [] 3000).2 1 =
      some [72, 89, 76, 76, 1, 0, 0, 0, 128, 0, 0, 0, 0, 0, 0, 0, 127, 255] := by
  refine ⟨by decide, ?_⟩
  show (if (1:Nat) = 1 then some (setInvalidCache createHLLObject) else none) = _
  decide

/-! ## Claim C2: the cache validity flag tested by PFCountKey -/

/-- Little-endian decode of the cached cardinality bytes 8..15, as the
cache-valid branch of Ardb::PFCountKey assembles it. -/
def cachedCardLE (buf : List Nat) : Nat :=
  buf.getD 8 0 ||| (buf.getD 9 0 <<< 8) ||| (buf.getD 10 0 <<< 16) |||
  (buf.getD 11 0 <<< 24) ||| (buf.getD 12 0 <<< 32) ||| (buf.getD 13 0 <<< 40) |||
  (buf.getD 14 0 <<< 48) ||| (buf.getD 15 0 <<< 56)

/-- A stored valid sparse sketch whose cached cardinality is 128: bytes
8..15 are 0x80 00 00 00 00 00 00 00, so the most significant bit of byte 15
is clear while the most significant bit of byte 8 is set. -/
def cacheBugSketch : List Nat :=
  [72, 89, 76, 76, 1, 0, 0, 0, 128, 0, 0, 0, 0, 0, 0, 0, 127, 255]

/-- Claim C2 fails on the code: the source's HLL_VALID_CACHE and
HLL_INVALIDATE_CACHE test and set the most significant bit of card[0]
(byte 8), not of byte 15 as the claim (and the source's own header comment,
which says the MSB of the most significant byte of the little-endian
cardinality) state. On cacheBugSketch, a valid sketch whose byte-15 MSB is
clear and whose stored little-endian cardinality is 128, the claim says
PFCOUNT takes the cache-valid branch and returns 128, but the code's
validity test reports the cache invalid and recomputes; and the
invalidation macro sets byte 8, leaving byte 15 untouched. -/
theorem cache_flag_is_byte8_not_byte15 :
    isHLLObjectOrReply cacheBugSketch = true ∧
    cacheBugSketch.getD 15 0 &&& 128 = 0 ∧
    cachedCardLE cacheBugSketch = 128 ∧
    hllValidCache cacheBugSketch = false ∧
    (setInvalidCache createHLLObject).getD 8 0 = 128 ∧
    (setInvalidCache createHLLObject).getD 15 0 = 0 := by decide

/-- Witness for C6 at the empty sketch: encoding is sparse and its single
XZERO covers exactly 16384 registers. -/
theorem sparse_to_dense_register_equiv_witness :
    createHLLObject.getD 4 0 ≠ 0 ∧
    ((sparseCoverage (createHLLObject.drop 16) = 16384 →
      ∃ regs, hllSparseToDense createHLLObject =
          some (((createHLLObject.take 16).set 4 0) ++ regs) ∧
        regs.length = 12288 ∧
        ∀ j, j < 16384 → denseGet regs j = sparseRegAt (createHLLObject.drop 16) j) ∧
    (sparseCoverage (createHLLObject.drop 16) ≠ 16384 →
      hllSparseToDense createHLLObject = none)) :=
  ⟨by decide, sparse_to_dense_register_equiv createHLLObject (by decide)⟩

/-! ## Claim C4: the promotion size threshold of hllSparseAdd -/

/-- Resulting sparse payload length after the general split of hllSparseAdd:
the old payload length plus the length of the replacement sequence minus
the length of the replaced opcode. This is the quantity the claim compares
against hll_sparse_max_bytes. -/
def splitPayloadLenAfter (buf : List Nat) (index count : Nat) : Option Nat :=
  match sparseLocate (buf.drop 16) index with
  | .found _ _ cur _ first =>
    some ((buf.drop 16).length +
      (sparseNewSeq cur first index (first + opSpan cur - 1) count).length -
      (if isXZeroOp (cur.headD 0) then 2 else 1))
  | .fellOff _ _ => none

theorem sparseAddSplit_promote_iff (buf before : List Nat) (prevOp : Option (List Nat))
    (cur tail : List Nat) (first index count maxB : Nat)
    (hgrow : (sparseNewSeq cur first index (first + opSpan cur - 1) count).length >
      (if isXZeroOp (cur.headD 0) then 2 else 1)) :
    (sparseAddSplit buf before prevOp cur tail first index count maxB = .promote ↔
      buf.length + ((sparseNewSeq cur first index (first + opSpan cur - 1) count).length -
        (if isXZeroOp (cur.headD 0) then 2 else 1)) > maxB) := by
  unfold sparseAddSplit
  by_cases hthr : buf.length +
      ((sparseNewSeq cur first index (first + opSpan cur - 1) count).length -
        (if isXZeroOp (cur.headD 0) then 2 else 1)) > maxB
  · rw [if_pos ⟨hgrow, hthr⟩]
    exact ⟨fun _ => hthr, fun _ => rfl⟩
  · rw [if_neg (fun hc => hthr hc.2)]
    exact ⟨fun hcon => SparseAddOut.noConfusion hcon, fun hcon => absurd hcon hthr⟩

/-- Amended claim C4: on the general split path of a sparse add whose
replacement sequence grows the buffer, promotion to dense is forced exactly
when the resulting total sds length, the 16-byte header plus the payload,
would exceed hll_sparse_max_bytes. (The claim as stated compares the
payload length alone; the source compares sdslen, which includes the
header.) -/
theorem sparse_promotion_total_length_threshold (buf : List Nat)
    (index count maxB : Nat) (before : List Nat) (prevOp : Option (List Nat))
    (cur tail : List Nat) (first : Nat)
    (hloc : sparseLocate (buf.drop 16) index = .found before prevOp cur tail first)
    (hcnt : ¬ count > 32)
    (hA : isValOp (cur.headD 0) = true → valOpValue (cur.headD 0) < count)
    (hB : isValOp (cur.headD 0) = true → valOpLen (cur.headD 0) ≠ 1)
    (hC : isZeroOp (cur.headD 0) = true → zeroOpLen (cur.headD 0) ≠ 1)
    (hgrow : (sparseNewSeq cur first index (first + opSpan cur - 1) count).length >
      (if isXZeroOp (cur.headD 0) then 2 else 1)) :
    (hllSparseAddCore buf index count maxB = .promote ↔
      buf.length + ((sparseNewSeq cur first index (first + opSpan cur - 1) count).length -
        (if isXZeroOp (cur.headD 0) then 2 else 1)) > maxB) := by
  unfold hllSparseAddCore
  rw [if_neg hcnt, hloc]
  show (if isValOp (cur.headD 0) = true then _ else _) = SparseAddOut.promote ↔ _
  by_cases hval : isValOp (cur.headD 0) = true
  · rw [if_pos hval, if_neg (by have := hA hval; omega),
      if_neg (hB hval)]
    exact sparseAddSplit_promote_iff buf before prevOp cur tail first index count maxB hgrow
  · rw [if_neg hval, if_neg (fun hc => ?side)]
    case side =>
      exact (hC hc.1) hc.2
    exact sparseAddSplit_promote_iff buf before prevOp cur tail first index count maxB hgrow

/-- Counterexample to C4 as stated: adding the element 0x61 to the fresh
18-byte empty sketch splits its XZERO into XZERO-VAL-XZERO, a growth of 3
bytes. The resulting sparse payload is 5 bytes, well below a threshold of
20, yet the code promotes, because it compares the total sds length
18 + 3 = 21 (header included) against the threshold. -/
theorem sparse_promotion_payload_cex :
    hllSparseAddCore createHLLObject (hllPatLen [97]).2 (hllPatLen [97]).1 20 =
      .promote ∧
    splitPayloadLenAfter createHLLObject (hllPatLen [97]).2 (hllPatLen [97]).1 =
      some 5 ∧
    5 ≤ 20 := by decide

/-- Witness for the amended C4 at the same concrete input. -/
theorem sparse_promotion_total_length_threshold_witness :
    sparseLocate (createHLLObject.drop 16) (hllPatLen [97]).2 =
      .found [] none [127, 255] [] 0 ∧
    (hllSparseAddCore createHLLObject (hllPatLen [97]).2 (hllPatLen [97]).1 20 =
        .promote ↔
      createHLLObject.length +
        ((sparseNewSeq [127, 255] 0 (hllPatLen [97]).2 (0 + opSpan [127, 255] - 1)
          (hllPatLen [97]).1).length -
          (if isXZeroOp (([127, 255] : List Nat).headD 0) then 2 else 1)) > 20) :=
  ⟨by decide,
    sparse_promotion_total_length_threshold createHLLObject (hllPatLen [97]).2
      (hllPatLen [97]).1 20 [] none [127, 255] [] 0 (by decide) (by decide)
      (by decide) (by decide) (by decide) (by decide)⟩

/-! ## Claim C8: the promotion path of hllSparseAdd always updates -/

theorem and_mask_mod256 (b m : Nat) (hm : m < 256) : b &&& m = (b % 256) &&& m := by
  apply Nat.eq_of_testBit_eq
  intro i
  rw [Nat.testBit_and, Nat.testBit_and]
  by_cases hi : i < 8
  · rw [show (256:Nat) = 2 ^ 8 by norm_num, Nat.testBit_mod_two_pow]
    simp [hi]
  · have hmb : m.testBit i = false := by
      apply Nat.testBit_lt_two_pow
      calc m < 256 := hm
      _ = 2 ^ 8 := by norm_num
      _ ≤ 2 ^ i := Nat.pow_le_pow_right (by norm_num) (by omega)
    simp [hmb]

theorem zero_not_val {b : Nat} (hz : isZeroOp b = true) : isValOp b = false := by
  unfold isZeroOp at hz
  unfold isValOp
  rw [and_mask_mod256 b 192 (by norm_num)] at hz
  rw [and_mask_mod256 b 128 (by norm_num)]
  have hb : b % 256 < 256 := Nat.mod_lt _ (by norm_num)
  revert hz
  have : ∀ c, c < 256 → (c &&& 192 == 0) = true → (c &&& 128 != 0) = false := by decide
  exact this _ hb

theorem val_not_xzero {b : Nat} (hv : isValOp b = true) : isXZeroOp b = false := by
  unfold isValOp at hv
  unfold isXZeroOp
  rw [and_mask_mod256 b 128 (by norm_num)] at hv
  rw [and_mask_mod256 b 192 (by norm_num)]
  have hb : b % 256 < 256 := Nat.mod_lt _ (by norm_num)
  revert hv
  have : ∀ c, c < 256 → (c &&& 128 != 0) = true → (c &&& 192 == 64) = false := by decide
  exact this _ hb

theorem opClass_xzero {b : Nat} (hz : ¬ isZeroOp b = true) (hv : ¬ isValOp b = true) :
    isXZeroOp b = true := by
  unfold isZeroOp at hz
  unfold isValOp at hv
  unfold isXZeroOp
  rw [and_mask_mod256 b 192 (by norm_num)] at hz ⊢
  rw [and_mask_mod256 b 128 (by norm_num)] at hv
  have hb : b % 256 < 256 := Nat.mod_lt _ (by norm_num)
  revert hz hv
  have : ∀ c, c < 256 → ¬ (c &&& 192 == 0) = true → ¬ (c &&& 128 != 0) = true →
      (c &&& 192 == 64) = true := by decide
  exact fun hz hv => this _ hb hz hv

/-- The register value encoded at the located index: when Step 1 finds the
opcode covering index, the value the sparse stream encodes there is the VAL
value for a VAL opcode and zero for ZERO/XZERO. -/
theorem sparseLocateGo_found_regAt (index : Nat) (payload before : List Nat)
    (prevOp : Option (List Nat)) (first : Nat) :
    first ≤ index →
    ∀ bf pv cur tl fst,
      sparseLocateGo index payload before prevOp first = .found bf pv cur tl fst →
      sparseRegAt payload (index - first) =
        (if isValOp (cur.headD 0) = true then valOpValue (cur.headD 0) else 0) := by
  induction payload, before, prevOp, first using sparseLocateGo.induct index with
  | case1 before prevOp x =>
    intro hfi bf pv cur tl fst hfound
    simp [sparseLocateGo] at hfound
  | case2 b rest before prevOp first hz hcov =>
    intro hfi bf pv cur tl fst hfound
    have heq : sparseLocateGo index (b :: rest) before prevOp first =
        .found before prevOp [b] rest first := by
      conv_lhs => unfold sparseLocateGo
      rw [if_pos hz, if_pos hcov]
    rw [heq] at hfound
    injection hfound with h1 h2 h3 h4 h5
    subst h3
    have hzl := zeroOpLen_pos b
    rw [sparseRegAt_zero_in hz rest (by omega : index - first < zeroOpLen b)]
    rw [if_neg (by simp [zero_not_val hz])]
  | case3 b rest before prevOp first hz hcov ih =>
    intro hfi bf pv cur tl fst hfound
    have heq : sparseLocateGo index (b :: rest) before prevOp first =
        sparseLocateGo index rest (before ++ prevOp.getD []) (some [b])
          (first + zeroOpLen b) := by
      conv_lhs => unfold sparseLocateGo
      rw [if_pos hz, if_neg hcov]
    rw [heq] at hfound
    have hzl := zeroOpLen_pos b
    have hres := ih (by omega) bf pv cur tl fst hfound
    rw [sparseRegAt_zero_skip hz rest (by omega : zeroOpLen b ≤ index - first)]
    rw [show index - first - zeroOpLen b = index - (first + zeroOpLen b) from by omega]
    exact hres
  | case4 b rest before prevOp first hz hv hcov =>
    intro hfi bf pv cur tl fst hfound
    have heq : sparseLocateGo index (b :: rest) before prevOp first =
        .found before prevOp [b] rest first := by
      conv_lhs => unfold sparseLocateGo
      rw [if_neg hz, if_pos hv, if_pos hcov]
    rw [heq] at hfound
    injection hfound with h1 h2 h3 h4 h5
    subst h3
    have hvl := valOpLen_pos b
    rw [sparseRegAt_val_in hz (by simp [val_not_xzero hv]) rest
      (by omega : index - first < valOpLen b)]
    rw [if_pos (by simpa using hv)]
    rfl
  | case5 b rest before prevOp first hz hv hcov ih =>
    intro hfi bf pv cur tl fst hfound
    have heq : sparseLocateGo index (b :: rest) before prevOp first =
        sparseLocateGo index rest (before ++ prevOp.getD []) (some [b])
          (first + valOpLen b) := by
      conv_lhs => unfold sparseLocateGo
      rw [if_neg hz, if_pos hv, if_neg hcov]
    rw [heq] at hfound
    have hvl := valOpLen_pos b
    have hres := ih (by omega) bf pv cur tl fst hfound
    rw [sparseRegAt_val_skip hz (by simp [val_not_xzero hv]) rest
      (by omega : valOpLen b ≤ index - first)]
    rw [show index - first - valOpLen b = index - (first + valOpLen b) from by omega]
    exact hres
  | case6 b before prevOp first hz hv b2 r2 hcov =>
    intro hfi bf pv cur tl fst hfound
    have heq : sparseLocateGo index (b :: b2 :: r2) before prevOp first =
        .found before prevOp [b, b2] r2 first := by
      conv_lhs => unfold sparseLocateGo
      rw [if_neg hz, if_neg hv]
      show (if index ≤ first + xzeroOpLen b b2 - 1 then
        SparseLoc.found before prevOp [b, b2] r2 first
        else sparseLocateGo index r2 (before ++ prevOp.getD []) (some [b, b2])
          (first + xzeroOpLen b b2)) = _
      rw [if_pos hcov]
    rw [heq] at hfound
    injection hfound with h1 h2 h3 h4 h5
    subst h3
    have hxl := xzeroOpLen_pos b b2
    rw [sparseRegAt_xzero_in hz (opClass_xzero hz hv) b2 r2
      (by omega : index - first < xzeroOpLen b b2)]
    rw [if_neg (by simpa using hv)]
  | case7 b before prevOp first hz hv b2 r2 hcov ih =>
    intro hfi bf pv cur tl fst hfound
    have heq : sparseLocateGo index (b :: b2 :: r2) before prevOp first =
        sparseLocateGo index r2 (before ++ prevOp.getD []) (some [b, b2])
          (first + xzeroOpLen b b2) := by
      conv_lhs => unfold sparseLocateGo
      rw [if_neg hz, if_neg hv]
      show (if index ≤ first + xzeroOpLen b b2 - 1 then
        SparseLoc.found before prevOp [b, b2] r2 first
        else sparseLocateGo index r2 (before ++ prevOp.getD []) (some [b, b2])
          (first + xzeroOpLen b b2)) = _
      rw [if_neg hcov]
    rw [heq] at hfound
    have hxl := xzeroOpLen_pos b b2
    have hres := ih (by omega) bf pv cur tl fst hfound
    rw [sparseRegAt_xzero_skip hz (opClass_xzero hz hv) b2 r2
      (by omega : xzeroOpLen b b2 ≤ index - first)]
    rw [show index - first - xzeroOpLen b b2 = index - (first + xzeroOpLen b b2)
      from by omega]
    exact hres
  | case8 b before prevOp first hz hv hcov =>
    intro hfi bf pv cur tl fst hfound
    have heq : sparseLocateGo index [b] before prevOp first =
        .found before prevOp [b] [] first := by
      conv_lhs => unfold sparseLocateGo
      rw [if_neg hz, if_neg hv]
      show (if index ≤ first + xzeroOpLen b 0 - 1 then
        SparseLoc.found before prevOp [b] [] first
        else SparseLoc.fellOff (before ++ prevOp.getD []) (some [b])) = _
      rw [if_pos hcov]
    rw [heq] at hfound
    injection hfound with h1 h2 h3 h4 h5
    subst h3
    rw [sparseRegAt_xzero_nil hz (opClass_xzero hz hv)]
    rw [if_neg (by simpa using hv)]
  | case9 b before prevOp first hz hv hcov =>
    intro hfi bf pv cur tl fst hfound
    have heq : sparseLocateGo index [b] before prevOp first =
        .fellOff (before ++ prevOp.getD []) (some [b]) := by
      conv_lhs => unfold sparseLocateGo
      rw [if_neg hz, if_neg hv]
      show (if index ≤ first + xzeroOpLen b 0 - 1 then
        SparseLoc.found before prevOp [b] [] first
        else SparseLoc.fellOff (before ++ prevOp.getD []) (some [b])) = _
      rw [if_neg hcov]
    rw [heq] at hfound
    exact SparseLoc.noConfusion hfound

/-- Inversion of a promote outcome: either the count is unrepresentable
(count > 32), or the scan found a covering opcode and the case A test
failed, so a VAL opcode there holds a value strictly below count. -/
theorem core_promote_cases (buf : List Nat) (index count maxB : Nat)
    (h : hllSparseAddCore buf index count maxB = .promote) :
    count > 32 ∨
    (∃ bf pv cur tl fst,
      sparseLocate (buf.drop 16) index = .found bf pv cur tl fst ∧
      (isValOp (cur.headD 0) = true → valOpValue (cur.headD 0) < count)) := by
  by_cases hcnt : count > 32
  · exact Or.inl hcnt
  · right
    cases hloc : sparseLocate (buf.drop 16) index with
    | fellOff bf pv =>
      exfalso
      by_cases hE : (buf.drop 16).isEmpty = true
      · have hcor : hllSparseAddCore buf index count maxB = .corrupt := by
          unfold hllSparseAddCore
          rw [if_neg hcnt, hloc]
          show (if (buf.drop 16).isEmpty = true then SparseAddOut.corrupt else _) = _
          rw [if_pos hE]
        rw [hcor] at h
        exact SparseAddOut.noConfusion h
      · have hupd : hllSparseAddCore buf index count maxB =
            .updated (spliceAndMerge buf bf pv [] [] (buf.drop 16).length) := by
          unfold hllSparseAddCore
          rw [if_neg hcnt, hloc]
          show (if (buf.drop 16).isEmpty = true then SparseAddOut.corrupt else _) = _
          rw [if_neg hE]
        rw [hupd] at h
        exact SparseAddOut.noConfusion h
    | found bf pv cur tl fst =>
      refine ⟨bf, pv, cur, tl, fst, rfl, ?_⟩
      intro hval
      by_cases hge : valOpValue (cur.headD 0) ≥ count
      · exfalso
        have hunc : hllSparseAddCore buf index count maxB = .unchanged := by
          unfold hllSparseAddCore
          rw [if_neg hcnt, hloc]
          show (if isValOp (cur.headD 0) = true then _ else _) = _
          rw [if_pos hval, if_pos hge]
        rw [hunc] at h
        exact SparseAddOut.noConfusion h
      · omega

/-- Claim C8: whenever a sparse add on a valid sparse sketch takes the
promotion path, the dense add performed after the conversion returns
Updated (1): the source's assertion on the post-promotion dense add never
fails, because promotion is only triggered when the register's current
value is strictly below the new count. -/
theorem sparse_promotion_dense_add_returns_one (buf ele : List Nat) (maxB : Nat)
    (hlen16 : 16 ≤ buf.length)
    (henc : buf.getD 4 0 = 1)
    (hcov : sparseCoverage (buf.drop 16) = 16384)
    (hpro : hllSparseAddCore buf (hllPatLen ele).2 (hllPatLen ele).1 maxB =
      .promote) :
    (hllSparseAdd buf ele maxB).1 = 1 := by
  obtain ⟨hsucc, _⟩ := sparse_to_dense_register_equiv buf (by rw [henc]; norm_num)
  obtain ⟨regs, hd, hreglen, hregs⟩ := hsucc hcov
  have hidx : (hllPatLen ele).2 < 16384 := patIndex_lt ele
  have hcnt1 : 1 ≤ (hllPatLen ele).1 := patCount_pos ele
  have hbound : sparseRegAt (buf.drop 16) (hllPatLen ele).2 < (hllPatLen ele).1 := by
    rcases core_promote_cases buf _ _ maxB hpro with hgt |
      ⟨bf, pv, cur, tl, fst, hloc, hvb⟩
    · have := sparseRegAt_le_32 (buf.drop 16) (hllPatLen ele).2
      omega
    · have hreg := sparseLocateGo_found_regAt (hllPatLen ele).2 (buf.drop 16) [] none 0
        (Nat.zero_le _) bf pv cur tl fst hloc
      rw [Nat.sub_zero] at hreg
      rw [hreg]
      by_cases hval : isValOp (cur.headD 0) = true
      · rw [if_pos hval]
        exact hvb hval
      · rw [if_neg hval]
        omega
  unfold hllSparseAdd
  rw [hpro]
  show (match hllSparseToDense buf with
    | none => ((-1 : Int), buf)
    | some d => ((hllDenseAdd (d.drop 16) ele).1,
        d.take 16 ++ (hllDenseAdd (d.drop 16) ele).2)).1 = (1 : Int)
  rw [hd]
  show (hllDenseAdd ((((buf.take 16).set 4 0) ++ regs).drop 16) ele).1 = (1 : Int)
  have hlen : ((buf.take 16).set 4 0).length = 16 := by
    simp [List.length_set, List.length_take]
    omega
  have hdrop : (((buf.take 16).set 4 0) ++ regs).drop 16 = regs := by
    have hdl := List.drop_left ((buf.take 16).set 4 0) regs
    rw [hlen] at hdl
    exact hdl
  rw [hdrop]
  unfold hllDenseAdd
  rw [if_pos (by rw [hregs _ hidx]; exact hbound)]

/-- Witness for C8: the empty sketch with element 0x61 and threshold 20
takes the size-based promotion path and the subsequent dense add updates. -/
theorem sparse_promotion_dense_add_returns_one_witness :
    16 ≤ createHLLObject.length ∧
    createHLLObject.getD 4 0 = 1 ∧
    sparseCoverage (createHLLObject.drop 16) = 16384 ∧
    hllSparseAddCore createHLLObject (hllPatLen [97]).2 (hllPatLen [97]).1 20 =
      .promote ∧
    (hllSparseAdd createHLLObject [97] 20).1 = 1 :=
  ⟨by decide, by decide, by decide, by decide,
    sparse_promotion_dense_add_returns_one createHLLObject [97] 20 (by decide)
      (by decide) (by decide) (by decide)⟩

/-! ## Claim C1: PFMerge and the first source key -/

/-- A valid sparse sketch whose register 0 is 1: VAL(1,1) followed by
XZERO(16383). -/
def pfmergeSrcSketch : List Nat :=
  [72, 89, 76, 76, 1, 0, 0, 0, 0, 0, 0, 0, 0, 0, 0, 0, 128, 127, 254]

/-- A store holding pfmergeSrcSketch under key 2 and nothing else. -/
def pfmergeBugStore : Store := fun k => if k = 2 then some pfmergeSrcSketch else none

theorem createHLLObject_to_dense :
    hllSparseToDense createHLLObject =
      some (((createHLLObject.take 16).set 4 0) ++ List.replicate 12288 0) := by
  unfold hllSparseToDense
  rw [if_neg (by decide), show createHLLObject.drop 16 = [127, 255] from by decide]
  rw [s2dLoop_xzero (by decide) (by decide) 255 [] 0 (List.replicate 12288 0)]
  rw [show (0 + xzeroOpLen 127 255) = 16384 from by decide]
  rw [if_pos (show (s2dLoop [] 16384 (List.replicate 12288 0)).1 = 16384 from rfl)]
  rfl

theorem foldl_denseSet_zeros (js : List Nat) (mx : List Nat)
    (hmx : ∀ b ∈ mx, b = 0) :
    ∀ (regs : List Nat), (∀ b ∈ regs, b = 0) →
      ∀ b ∈ js.foldl (fun acc j => denseSet acc j (mx.getD j 0)) regs, b = 0 := by
  induction js with
  | nil => exact fun regs hregs => hregs
  | cons j js ih =>
    intro regs hregs
    show ∀ b ∈ js.foldl _ (denseSet regs j (mx.getD j 0)), b = 0
    refine ih (denseSet regs j (mx.getD j 0)) ?_
    intro b hmem
    unfold denseSet at hmem
    rcases List.mem_or_eq_of_mem_set hmem with h | h
    · rcases List.mem_or_eq_of_mem_set h with h' | h'
      · exact hregs b h'
      · rw [h']
        unfold denseSetB0
        rw [zeros_getD hregs, zeros_getD hmx]
        simp
    · rw [h]
      unfold denseSetB1
      rw [zeros_getD hregs, zeros_getD hmx]
      simp

theorem pfMergeWriteRegs_zeros :
    ∀ b ∈ pfMergeWriteRegs (List.replicate 12288 0) (List.replicate 16384 0), b = 0 :=
  foldl_denseSet_zeros (List.range 16384) (List.replicate 16384 0)
    (replicate_zeros _) (List.replicate 12288 0) (replicate_zeros _)

theorem pfmerge_bug_result :
    PFMerge pfmergeBugStore 1 [2] =
      (.ok 0, setStore pfmergeBugStore 1 (setInvalidCache
        (((createHLLObject.take 16).set 4 0) ++
          pfMergeWriteRegs (List.replicate 12288 0) (List.replicate 16384 0)))) := by
  have hlen16 : ((createHLLObject.take 16).set 4 0).length = 16 := by decide
  unfold PFMerge
  rw [show ([2] : List Nat).drop 1 = [] from rfl]
  rw [show pfMergeSources pfmergeBugStore [] (List.replicate 16384 0) =
    .ok (List.replicate 16384 0) from rfl]
  show (match pfmergeBugStore 1 with
    | some v =>
      if isHLLObjectOrReply v = true then
        pfMergeFinish pfmergeBugStore 1 (List.replicate 16384 0) v
      else (PFRes.errInvalidHLLType, pfmergeBugStore)
    | none => pfMergeFinish pfmergeBugStore 1 (List.replicate 16384 0)
        createHLLObject) = _
  rw [show pfmergeBugStore 1 = none from rfl]
  show pfMergeFinish pfmergeBugStore 1 (List.replicate 16384 0) createHLLObject = _
  unfold pfMergeFinish
  rw [createHLLObject_to_dense]
  show (PFRes.ok 0, setStore pfmergeBugStore 1 (setInvalidCache
    (((((createHLLObject.take 16).set 4 0) ++ List.replicate 12288 0).take 16 ++
      pfMergeWriteRegs (((((createHLLObject).take 16).set 4 0) ++
        List.replicate 12288 0).drop 16) (List.replicate 16384 0))))) = _
  have htake : ((((createHLLObject.take 16).set 4 0) ++ List.replicate 12288 0).take 16) =
      ((createHLLObject.take 16).set 4 0) := by
    have h := List.take_left ((createHLLObject.take 16).set 4 0) (List.replicate 12288 0)
    rw [hlen16] at h
    exact h
  have hdrop : ((((createHLLObject.take 16).set 4 0) ++ List.replicate 12288 0).drop 16) =
      List.replicate 12288 0 := by
    have h := List.drop_left ((createHLLObject.take 16).set 4 0) (List.replicate 12288 0)
    rw [hlen16] at h
    exact h
  rw [htake, hdrop]

theorem drop16_set8_append {h : List Nat} (hlen : h.length = 16) (W : List Nat)
    (x : Nat) : ((h ++ W).set 8 x).drop 16 = W := by
  rw [List.set_append_left 8 x (by omega)]
  have hdl := List.drop_left (h.set 8 x) W
  rw [List.length_set, hlen] at hdl
  exact hdl

/-- Claim C1 fails on the code: PFMerge starts its source loop at j = 1 and
never reads the first key of srckeys. With the only source key holding a
sketch whose register 0 is 1, the merge succeeds (OK) yet the stored
destination is the all-zero dense sketch: its register 0 is 0, strictly
below the source's register 0. -/
theorem pfmerge_skips_first_source :
    isHLLObjectOrReply pfmergeSrcSketch = true ∧
    sparseRegAt (pfmergeSrcSketch.drop 16) 0 = 1 ∧
    (PFMerge pfmergeBugStore 1 [2]).1 = .ok 0 ∧
    denseGet (((((PFMerge pfmergeBugStore 1 [2]).2) 1).getD []).drop 16) 0 = 0 := by
  refine ⟨by decide, by decide, ?_, ?_⟩
  · rw [pfmerge_bug_result]
  · rw [pfmerge_bug_result]
    have hset : ∀ v : List Nat, setStore pfmergeBugStore 1 v 1 = some v :=
      fun v => if_pos rfl
    show denseGet (((setStore pfmergeBugStore 1 (setInvalidCache
      (((createHLLObject.take 16).set 4 0) ++
        pfMergeWriteRegs (List.replicate 12288 0) (List.replicate 16384 0))) 1).getD
          []).drop 16) 0 = 0
    rw [hset, Option.getD_some]
    unfold setInvalidCache
    rw [drop16_set8_append (by decide) _ _]
    exact denseGet_zero_list pfMergeWriteRegs_zeros 0
